import Mathlib

/-!
Shallow embedding of the plasticity-correction engine
(`src/solver/plasticity_engine.py`): temperature-blended hardening-curve
database, curve interpolation / inversion / plastic-energy primitives,
the Neuber and Glinka scalar Newton solvers, and the incremental
Buczynski-Glinka (IBG) tensor-history solver.

Modelling conventions:
* float64 arithmetic is modelled as exact arithmetic in a linear ordered
  field `K` (instantiated at `ℚ` for computation/`decide`, at `ℝ` for the
  IBG solver, whose von Mises stress needs a square root);
* numpy 1D arrays become `ℕ → K` together with an explicit length,
  2D arrays become `ℕ → ℕ → K` with explicit row/column counts;
* `np.sqrt` is a parameter `sq : K → K`, instantiated with `Real.sqrt`
  in every theorem about the IBG solver;
* functions that raise `ValueError` return `Option` (`none` = raise);
* `for` loops with `break`/`return` become structural recursion on an
  explicit fuel argument equal to the remaining iteration count.
-/

namespace PlasticityEngine

variable {K : Type} [LinearOrderedField K]

/-- Additive guard from the source: `EPS = 1e-12`. -/
def EPS : K := 1 / 10 ^ 12

/-- Poisson ratio constant from the source: `POISSON_RATIO = 0.30`. -/
def poissonRatio : K := 3 / 10

/-- Voigt weights from the source: `VOIGT_WEIGHTS = [1,1,1,2,2,2]`. -/
def voigtWeights (j : ℕ) : K := if j < 3 then 1 else 2

/-- The frozen dataclass `MaterialDB`: temperatures `TEMP` (length `nt`),
Young moduli `E_tab` (length `nt`), hardening-curve matrices `SIG`/`EPSP`
(shape `nt × np2`, `np2` curve points per temperature row). -/
structure MaterialDB (K : Type) where
  nt : ℕ
  np2 : ℕ
  TEMP : ℕ → K
  E_tab : ℕ → K
  SIG : ℕ → ℕ → K
  EPSP : ℕ → ℕ → K

/-- Strict increase of the first `n` entries of `f` (the content of
`np.all(np.diff(f) > 0)`). -/
def StrictIncOn (f : ℕ → K) (n : ℕ) : Prop := ∀ k < n - 1, f k < f (k + 1)

instance (f : ℕ → ℚ) (n : ℕ) : Decidable (StrictIncOn f n) :=
  inferInstanceAs (Decidable (∀ k < n - 1, f k < f (k + 1)))

/-- A material database that satisfies the invariants the engine relies on
at correction time: at least one temperature row, at least two curve points
per row, strictly increasing temperature axis, strictly increasing stress
axis in every row.  (The code's `from_arrays` checks all of these except
`1 ≤ nt`; see the claim about construction-time validation.) -/
def ValidDB (db : MaterialDB K) : Prop :=
  1 ≤ db.nt ∧ 2 ≤ db.np2 ∧ StrictIncOn db.TEMP db.nt ∧
    ∀ i < db.nt, StrictIncOn (db.SIG i) db.np2

instance (db : MaterialDB ℚ) : Decidable (ValidDB db) := by
  unfold ValidDB; infer_instance

/-- `MaterialDB.from_arrays`: validates raw arrays and builds the database;
`none` models the `ValueError`s raised on invalid input.  The 1D/2D rank
checks of the source are enforced by the types of this embedding; sizes are
passed explicitly (`ntTemp` = len(temp), `nE` = len(e_tab), `r × c` =
shape of sig, `r2 × c2` = shape of epsp). -/
def fromArrays (ntTemp nE : ℕ) (temp e_tab : ℕ → K) (r c r2 c2 : ℕ)
    (sig epsp : ℕ → ℕ → K) : Option (MaterialDB K) :=
  if ntTemp ≠ nE then none            -- "TEMP and E_tab length mismatch."
  else if ¬(r = r2 ∧ c = c2) then none -- "SIG and EPSP shape mismatch."
  else if r ≠ ntTemp then none  -- "First dimension of SIG/EPSP must match TEMP size."
  else if c < 2 then none       -- "Need at least two points per hardening curve."
  else if ¬((List.range (ntTemp - 1)).all fun k => decide (temp k < temp (k + 1)))
    then none                   -- "TEMP must be strictly increasing."
  else if ¬((List.range r).all fun i =>
      (List.range (c - 1)).all fun k => decide (sig i k < sig i (k + 1)))
    then none                   -- "Each SIG row must be strictly increasing."
  else some ⟨ntTemp, c, temp, e_tab, sig, epsp⟩

/-- `np.searchsorted(TEMP, T)` (side `left`) on a sorted array returns the
left insertion point, i.e. the number of entries strictly below `T`. -/
def searchsortedLeft (TEMP : ℕ → K) (nT : ℕ) (T : K) : ℕ :=
  ((List.range nT).filter fun k => decide (TEMP k < T)).length

/-- Result of `_bound_T_indices_njit`: bracketing row indices and blend
weight. -/
structure TBound (K : Type) where
  lo : ℕ
  hi : ℕ
  w : K

/-- `_bound_T_indices_njit(T, TEMP)`: `i = searchsorted(TEMP, T) - 1`;
clamp to the first row when `i < 0`, to the last row when `i ≥ nT - 1`,
otherwise interpolate linearly between rows `i` and `i+1`. -/
def boundTIndices (db : MaterialDB K) (T : K) : TBound K :=
  let s := searchsortedLeft db.TEMP db.nt T
  if s = 0 then ⟨0, 0, 0⟩
  else if db.nt ≤ s then ⟨db.nt - 1, db.nt - 1, 0⟩
  else ⟨s - 1, s, (T - db.TEMP (s - 1)) / (db.TEMP s - db.TEMP (s - 1))⟩

/-- `E_of_T_njit`: temperature-blended Young modulus. -/
def E_of_T (db : MaterialDB K) (T : K) : K :=
  let b := boundTIndices db T
  (1 - b.w) * db.E_tab b.lo + b.w * db.E_tab b.hi

/-- `yield_of_T_njit`: approximate yield as the first `SIG` point of each
bracketing row, blended across temperature. -/
def yield_of_T (db : MaterialDB K) (T : K) : K :=
  let b := boundTIndices db T
  (1 - b.w) * db.SIG b.lo 0 + b.w * db.SIG b.hi 0

/-- Loop body of `_interp_epsp_on_curve_njit`: scan adjacent curve points
`(k, k+1)` for a bracketing segment; past the loop either hold the last
plastic-strain value (plateau policy) or extrapolate with the final
segment's slope.  `fuel` is the remaining iteration count (`n - 1 - k`). -/
def interpEpspGo (sig : K) (sigRow epspRow : ℕ → K) (n : ℕ)
    (usePlateau : Bool) : ℕ → ℕ → K
  | 0, _ =>
    if usePlateau then epspRow (n - 1)
    else
      epspRow (n - 1) + (sig - sigRow (n - 1)) *
        ((epspRow (n - 1) - epspRow (n - 2)) / (sigRow (n - 1) - sigRow (n - 2) + EPS))
  | fuel + 1, k =>
    if sigRow k ≤ sig ∧ sig ≤ sigRow (k + 1) then
      epspRow k + (sig - sigRow k) * (epspRow (k + 1) - epspRow k) /
        (sigRow (k + 1) - sigRow k + EPS)
    else interpEpspGo sig sigRow epspRow n usePlateau fuel (k + 1)

/-- `_interp_epsp_on_curve_njit(sig, sig_row, epsp_row, use_plateau)`:
piecewise-linear plastic strain at stress `sig` on one temperature row
(`0` at or below the first stress point). -/
def interpEpspOnCurve (sig : K) (sigRow epspRow : ℕ → K) (n : ℕ)
    (usePlateau : Bool) : K :=
  if sig ≤ sigRow 0 then 0
  else interpEpspGo sig sigRow epspRow n usePlateau (n - 1) 0

/-- Loop body of `_invert_sigma_on_curve_njit` (same scan on the
plastic-strain axis). -/
def invertSigmaGo (epsp : K) (sigRow epspRow : ℕ → K) (n : ℕ)
    (usePlateau : Bool) : ℕ → ℕ → K
  | 0, _ =>
    if usePlateau then sigRow (n - 1)
    else
      sigRow (n - 1) + ((sigRow (n - 1) - sigRow (n - 2)) /
        (epspRow (n - 1) - epspRow (n - 2) + EPS)) * (epsp - epspRow (n - 1))
  | fuel + 1, k =>
    if epspRow k ≤ epsp ∧ epsp ≤ epspRow (k + 1) then
      sigRow k + ((epsp - epspRow k) / (epspRow (k + 1) - epspRow k + EPS)) *
        (sigRow (k + 1) - sigRow k)
    else invertSigmaGo epsp sigRow epspRow n usePlateau fuel (k + 1)

/-- `_invert_sigma_on_curve_njit(epsp, sig_row, epsp_row, use_plateau)`:
piecewise-linear flow stress at plastic strain `epsp` on one row
(first stress point at or below the first plastic-strain value). -/
def invertSigmaOnCurve (epsp : K) (sigRow epspRow : ℕ → K) (n : ℕ)
    (usePlateau : Bool) : K :=
  if epsp ≤ epspRow 0 then sigRow 0
  else invertSigmaGo epsp sigRow epspRow n usePlateau (n - 1) 0

/-- Loop body of `_plastic_energy_on_curve_njit`, carrying the trapezoid
`area` accumulated over full segments so far. -/
def plasticEnergyGo (sig : K) (sigRow epspRow : ℕ → K) (n : ℕ)
    (usePlateau : Bool) : ℕ → ℕ → K → K
  | 0, _, area =>
    if usePlateau then area
    else
      area + (1 / 2) * (sigRow (n - 1) + sig) *
        ((epspRow (n - 1) + ((epspRow (n - 1) - epspRow (n - 2)) /
            (sigRow (n - 1) - sigRow (n - 2) + EPS)) * (sig - sigRow (n - 1))) -
          epspRow (n - 1))
  | fuel + 1, k, area =>
    if sig ≤ sigRow (k + 1) then
      area + (1 / 2) * (sigRow k + sig) *
        ((epspRow k + (sig - sigRow k) * (epspRow (k + 1) - epspRow k) /
            (sigRow (k + 1) - sigRow k + EPS)) - epspRow k)
    else
      plasticEnergyGo sig sigRow epspRow n usePlateau fuel (k + 1)
        (area + (1 / 2) * (sigRow k + sigRow (k + 1)) * (epspRow (k + 1) - epspRow k))

/-- `_plastic_energy_on_curve_njit(sig, sig_row, epsp_row, use_plateau)`:
`Up(σ) = ∫ σ_flow dεp` by trapezoids up to the bracketing segment
(`0` at or below the first stress point; plateau policy adds nothing past
the last point). -/
def plasticEnergyOnCurve (sig : K) (sigRow epspRow : ℕ → K) (n : ℕ)
    (usePlateau : Bool) : K :=
  if sig ≤ sigRow 0 then 0
  else plasticEnergyGo sig sigRow epspRow n usePlateau (n - 1) 0 0

/-- `epsp_of_T_sigma_njit`: plastic strain at `(T, sig)`, blending the two
bracketing rows (single evaluation when the indices coincide). -/
def epspOfTSigma (db : MaterialDB K) (T sig : K) (usePlateau : Bool) : K :=
  let b := boundTIndices db T
  let eL := interpEpspOnCurve sig (db.SIG b.lo) (db.EPSP b.lo) db.np2 usePlateau
  if b.lo = b.hi then eL
  else
    (1 - b.w) * eL +
      b.w * interpEpspOnCurve sig (db.SIG b.hi) (db.EPSP b.hi) db.np2 usePlateau

/-- `sigma_of_T_epsp_njit`: flow stress at `(T, epsp)`, blended. -/
def sigmaOfTEpsp (db : MaterialDB K) (T epsp : K) (usePlateau : Bool) : K :=
  let b := boundTIndices db T
  let sL := invertSigmaOnCurve epsp (db.SIG b.lo) (db.EPSP b.lo) db.np2 usePlateau
  if b.lo = b.hi then sL
  else
    (1 - b.w) * sL +
      b.w * invertSigmaOnCurve epsp (db.SIG b.hi) (db.EPSP b.hi) db.np2 usePlateau

/-- `Up_of_T_sigma_njit`: plastic strain energy density at `(T, sig)`,
blended. -/
def UpOfTSigma (db : MaterialDB K) (T sig : K) (usePlateau : Bool) : K :=
  let b := boundTIndices db T
  let aL := plasticEnergyOnCurve sig (db.SIG b.lo) (db.EPSP b.lo) db.np2 usePlateau
  if b.lo = b.hi then aL
  else
    (1 - b.w) * aL +
      b.w * plasticEnergyOnCurve sig (db.SIG b.hi) (db.EPSP b.hi) db.np2 usePlateau

/-- The Neuber residual of `solve_neuber_vector_core`:
`r(σ) = σ/E(T) + εp(T,σ) - σe²/(σ·E(T) + EPS)` (the loop recomputes
`E = E_of_T(T)` each iteration; it is a pure function of `T`, so it is
inlined here). -/
def neuberResidual (db : MaterialDB K) (sigmaE T sigma : K)
    (usePlateau : Bool) : K :=
  sigma / E_of_T db T + epspOfTSigma db T sigma usePlateau -
    sigmaE * sigmaE / (sigma * E_of_T db T + EPS)

/-- The Newton update `step = r / (der + EPS)` of
`solve_neuber_vector_core`, with the forward finite-difference derivative
`der = (r(σ + dS) - r(σ)) / dS` at `dS = 1e-6·max(|σ|,1)`. -/
def neuberStep (db : MaterialDB K) (sigmaE T sigma : K)
    (usePlateau : Bool) : K :=
  neuberResidual db sigmaE T sigma usePlateau /
    ((neuberResidual db sigmaE T (sigma + 1 / 10 ^ 6 * max |sigma| 1)
          usePlateau -
        neuberResidual db sigmaE T sigma usePlateau) /
        (1 / 10 ^ 6 * max |sigma| 1) +
      EPS)

/-- Newton loop of `solve_neuber_vector_core` for one point: halving
damping when the update would drive `σ` non-positive, and a relative-step
convergence break (which still applies the final update).  `fuel` is the
remaining iteration count. -/
def neuberLoop (db : MaterialDB K) (sigmaE T tol : K) (usePlateau : Bool) :
    ℕ → K → K
  | 0, sigma => sigma
  | fuel + 1, sigma =>
    let step := neuberStep db sigmaE T sigma usePlateau
    let sigmaNext0 := sigma - step
    let sigmaNext := if sigmaNext0 ≤ 0 then 1 / 2 * sigma else sigmaNext0
    if |step| / (|sigma| + EPS) < tol then sigmaNext
    else neuberLoop db sigmaE T tol usePlateau fuel sigmaNext

/-- One entry of `solve_neuber_vector_core`: fast path `(0,0)` for
`σe ≤ 0`, otherwise Newton from `min(σe, yield(T))` (floored at `1e-6`),
returning the final iterate and its blended plastic strain. -/
def neuberPoint (db : MaterialDB K) (sigmaE T tol : K) (itmax : ℕ)
    (usePlateau : Bool) : K × K :=
  if sigmaE ≤ 0 then (0, 0)
  else
    let sigma0 := min sigmaE (yield_of_T db T)
    let sigma1 := if sigma0 ≤ 0 then 1 / 10 ^ 6 else sigma0
    let sigmaC := neuberLoop db sigmaE T tol usePlateau itmax sigma1
    (sigmaC, epspOfTSigma db T sigmaC usePlateau)

/-- The corrected strain-energy density of `solve_glinka_vector_core`:
`Uc(σ) = σ²/(2E + EPS) + Up(T,σ)`. -/
def glinkaUc (db : MaterialDB K) (T E sigma : K) (usePlateau : Bool) : K :=
  sigma * sigma / (2 * E + EPS) + UpOfTSigma db T sigma usePlateau

/-- Newton loop of `solve_glinka_vector_core` for one point, balancing
`Uc(σ)` against the elastic target `Ue0`.  Unlike Neuber, the residual
break fires before the update, so an exact energy match returns `σ`
unchanged. -/
def glinkaLoop (db : MaterialDB K) (T tol E Ue0 : K) (usePlateau : Bool) :
    ℕ → K → K
  | 0, sigma => sigma
  | fuel + 1, sigma =>
    let r := glinkaUc db T E sigma usePlateau - Ue0
    if |r| / (|Ue0| + EPS) < tol then sigma
    else
      let dS := 1 / 10 ^ 6 * max |sigma| 1
      let der := (glinkaUc db T E (sigma + dS) usePlateau -
        glinkaUc db T E sigma usePlateau) / dS
      let sigmaNew0 := sigma - r / (der + EPS)
      let sigmaNew := if sigmaNew0 ≤ 0 then 1 / 2 * sigma else sigmaNew0
      if |sigmaNew - sigma| / (|sigma| + EPS) < tol then sigmaNew
      else glinkaLoop db T tol E Ue0 usePlateau fuel sigmaNew

/-- One entry of `solve_glinka_vector_core`. -/
def glinkaPoint (db : MaterialDB K) (sigmaE T tol : K) (itmax : ℕ)
    (usePlateau : Bool) : K × K :=
  if sigmaE ≤ 0 then (0, 0)
  else
    let E := E_of_T db T
    let Ue0 := sigmaE * sigmaE / (2 * E + EPS)
    let sigma0 := min sigmaE (yield_of_T db T)
    let sigma1 := if sigma0 ≤ 0 then 1 / 10 ^ 6 else sigma0
    let sigmaC := glinkaLoop db T tol E Ue0 usePlateau itmax sigma1
    (sigmaC, epspOfTSigma db T sigmaC usePlateau)

/-- `apply_neuber_correction`: shape check (`ValueError` as `none`), then
the pointwise Neuber solve over `n` entries. -/
def applyNeuberCorrection (n m : ℕ) (sigmaEquivalent temperature : ℕ → K)
    (material : MaterialDB K) (tol : K) (maxIterations : ℕ)
    (usePlateau : Bool) : Option ((ℕ → K) × (ℕ → K)) :=
  if n ≠ m then none  -- "sigma_equivalent and temperature arrays must match in shape."
  else
    some
      (fun i => (neuberPoint material (sigmaEquivalent i) (temperature i) tol
          maxIterations usePlateau).1,
        fun i => (neuberPoint material (sigmaEquivalent i) (temperature i) tol
          maxIterations usePlateau).2)

/-- `apply_glinka_correction`: same contract as Neuber. -/
def applyGlinkaCorrection (n m : ℕ) (sigmaEquivalent temperature : ℕ → K)
    (material : MaterialDB K) (tol : K) (maxIterations : ℕ)
    (usePlateau : Bool) : Option ((ℕ → K) × (ℕ → K)) :=
  if n ≠ m then none  -- "sigma_equivalent and temperature arrays must match in shape."
  else
    some
      (fun i => (glinkaPoint material (sigmaEquivalent i) (temperature i) tol
          maxIterations usePlateau).1,
        fun i => (glinkaPoint material (sigmaEquivalent i) (temperature i) tol
          maxIterations usePlateau).2)

/-- `default_material_db()`: single temperature 22, `E = 70000`,
stress curve `[400, 1004.3]`, plastic-strain curve `[0, 0.3007]`. -/
def defaultMaterialDb : MaterialDB K :=
  ⟨1, 2, fun _ => 22, fun _ => 70000,
    fun _ j => if j = 0 then 400 else 10043 / 10,
    fun _ j => if j = 0 then 0 else 3007 / 10000⟩

/-- Radicand of `von_mises_from_voigt`:
`0.5((σx-σy)² + (σy-σz)² + (σz-σx)²) + 3(τxy² + τyz² + τzx²)`. -/
def vonMisesArg (s : ℕ → K) : K :=
  1 / 2 * ((s 0 - s 1) ^ 2 + (s 1 - s 2) ^ 2 + (s 2 - s 0) ^ 2) +
    3 * (s 3 * s 3 + s 4 * s 4 + s 5 * s 5)

/-- `von_mises_from_voigt(sig6)`, with `np.sqrt` as the parameter `sq`. -/
def vonMisesFromVoigt (sq : K → K) (s : ℕ → K) : K := sq (vonMisesArg s)

/-- `shear_modulus(E, nu) = E / (2(1+nu))`. -/
def shearModulus (E nu : K) : K := E / (2 * (1 + nu))

/-- `deviator(sig6)`: subtract the hydrostatic mean from the three normal
components, keep the shear components. -/
def deviator (s : ℕ → K) : ℕ → K := fun j =>
  if j < 3 then s j - (s 0 + s 1 + s 2) / 3 else s j

/-- `delta_Ue_tensor(sig_prev, sig_now, E, nu)`: deviatoric strain-energy
increment `½(σd_prev+σd_now):(εd_now-εd_prev)` with `εd = σd/(2G)`,
written as a Voigt-weighted dot product over `4G + EPS`. -/
def deltaUeTensor (sigPrev sigNow : ℕ → K) (E nu : K) : K :=
  let dp := deviator sigPrev
  let dn := deviator sigNow
  let G := shearModulus E nu
  (∑ j ∈ Finset.range 6, voigtWeights j * (dp j + dn j) * (dn j - dp j)) /
    (4 * G + EPS)

/-- Midpoint refinement loop of `_delta_epsp_curve_aware_core`: three fixed
iterations recomputing the flow stress at the strain midpoint, stopping
early when the midpoint flow stress is non-positive. -/
def depLoop (db : MaterialDB K) (T epspPrev dUe : K) (usePlateau : Bool) :
    ℕ → K → K
  | 0, dep => dep
  | fuel + 1, dep =>
    let sMid := sigmaOfTEpsp db T (epspPrev + 1 / 2 * dep) usePlateau
    if sMid ≤ 0 then dep
    else depLoop db T epspPrev dUe usePlateau fuel (dUe / (sMid + EPS))

/-- `_delta_epsp_curve_aware_core(dUe, T, epsp_prev, ...)`: plastic strain
increment solving `ΔUe = ∫ σ_flow dεp` by a midpoint closure, clamped
non-negative. -/
def deltaEpspCurveAware (db : MaterialDB K) (dUe T epspPrev : K)
    (usePlateau : Bool) : K :=
  if dUe ≤ 0 then 0
  else
    let sigY := yield_of_T db T
    let dep0 := dUe / max sigY (1 / 10 ^ 9)
    max (depLoop db T epspPrev dUe usePlateau 3 dep0) 0

/-- The two-pass contraction-factor iteration of `ibg_solver_tensor_core`:
`denom = max(scale·vm_el, flow, 1e-9)`, `scale = 1/(1 + E·Δεp/denom)`,
with the flow stress taken at the (not yet updated) accumulated plastic
strain. -/
def scaleLoop (db : MaterialDB K) (Tk epspPrev vmEl Ek dep : K)
    (usePlateau : Bool) : ℕ → K → K
  | 0, scale => scale
  | fuel + 1, scale =>
    let vmCorr := scale * vmEl
    let flow := sigmaOfTEpsp db Tk epspPrev usePlateau
    let denom := max vmCorr (max flow (1 / 10 ^ 9))
    scaleLoop db Tk epspPrev vmEl Ek dep usePlateau fuel
      (1 / (1 + Ek * dep / denom))

/-- One time step `k ≥ 1` of `ibg_solver_tensor_core`: either the purely
elastic fast path (stress copied, plastic strain carried forward) or the
curve-aware increment plus deviatoric-only radial scaling
`hyd + scale·dev`. -/
def ibgStep (sq : K → K) (db : MaterialDB K) (sigPrev sigNow : ℕ → K)
    (Tk epspPrev : K) (usePlateau : Bool) : (ℕ → K) × K :=
  let Ek := E_of_T db Tk
  let dUe := deltaUeTensor sigPrev sigNow Ek poissonRatio
  if max (vonMisesFromVoigt sq sigPrev) (vonMisesFromVoigt sq sigNow) ≤
      yield_of_T db Tk ∧ epspPrev ≤ 0 then
    (sigNow, epspPrev)
  else
    let dep := deltaEpspCurveAware db (max dUe 0) Tk epspPrev usePlateau
    let scale := scaleLoop db Tk epspPrev (vonMisesFromVoigt sq sigNow) Ek dep
      usePlateau 2 1
    let m := (sigNow 0 + sigNow 1 + sigNow 2) / 3
    (fun j => (if j < 3 then m else (0 : K)) +
        scale * (sigNow j - if j < 3 then m else 0),
      epspPrev + dep)

/-- `ibg_solver_tensor_core` unrolled over the time axis: state after step
`k` is the corrected stress at step `k` plus the accumulated plastic
strain.  Step 0 is always elastic. -/
def ibgState (sq : K → K) (db : MaterialDB K) (sigHist : ℕ → ℕ → K)
    (THist : ℕ → K) (usePlateau : Bool) : ℕ → (ℕ → K) × K
  | 0 => (sigHist 0, 0)
  | k + 1 =>
    ibgStep sq db (sigHist k) (sigHist (k + 1)) (THist (k + 1))
      (ibgState sq db sigHist THist usePlateau k).2 usePlateau

/-- Worst-case round-trip interpolation error bound for one hardening-curve
row: the `EPS` guards on the two interpolation denominators perturb a
round trip through segment `k` by at most
`EPS · (Δs k + Δe k + EPS) / Δe k`; this is the maximum of that quantity
over all segments. -/
def rtBound (sigRow epspRow : ℕ → K) (n : ℕ) : K :=
  EPS * ((List.range (n - 1)).foldr
    (fun k acc =>
      max ((sigRow (k + 1) - sigRow k + (epspRow (k + 1) - epspRow k) + EPS) /
        (epspRow (k + 1) - epspRow k)) acc)
    0)

/-- `apply_ibg_correction`: shape checks (history must be `N × 6`,
temperature history of length `N`), then the sequential tensor solve. -/
def applyIbgCorrection (sq : K → K) (n cols m : ℕ)
    (stressHistory : ℕ → ℕ → K) (temperatureHistory : ℕ → K)
    (material : MaterialDB K) (usePlateau : Bool) :
    Option ((ℕ → ℕ → K) × (ℕ → K)) :=
  if cols ≠ 6 then none  -- "stress_history must have shape (N, 6) with Voigt ordering."
  else if m ≠ n then none -- "temperature_history length must match stress_history rows."
  else
    some
      (fun k => (ibgState sq material stressHistory temperatureHistory
          usePlateau k).1,
        fun k => (ibgState sq material stressHistory temperatureHistory
          usePlateau k).2)

/-- A single-temperature database whose Young modulus is tuned so that the
Neuber residual vanishes exactly at the yield stress for the input
`σe = 400 + 1e-13` (a "grazing" input just above yield): `E` solves
`σe² = y² + y·EPS/E` at `y = 400`. -/
def dbGraze : MaterialDB ℚ :=
  ⟨1, 2, fun _ => 22, fun _ => 4 * 10 ^ 16 / (8 * 10 ^ 15 + 1),
    fun _ j => if j = 0 then 400 else 500,
    fun _ j => if j = 0 then 0 else 1 / 10⟩

/-- A valid two-temperature database with a (physically meaningless but
construction-accepted) negative Young modulus, and yield stress dropping
from 500 to 90 across the temperature range. -/
def dbNegE : MaterialDB K :=
  ⟨2, 2, fun k => if k = 0 then 0 else 100, fun _ => -70000,
    fun k j =>
      if k = 0 then (if j = 0 then 500 else 600)
      else (if j = 0 then 90 else 200),
    fun _ j => if j = 0 then 0 else 1 / 10⟩

/-- Uniaxial stress history for the IBG counterexample: `σxx = 100` at step
0, `σxx = 80` afterwards, all other components zero. -/
def histNegE : ℕ → ℕ → K := fun k j =>
  if j = 0 then (if k = 0 then 100 else 80) else 0

/-- Temperature history for the IBG counterexample: 0 at step 0, 100
afterwards. -/
def tempNegE : ℕ → K := fun k => if k = 0 then 0 else 100

/-- A valid two-temperature rational database used to witness the
temperature-boundary behaviour. -/
def dbTwoTemp : MaterialDB ℚ :=
  ⟨2, 2, fun k => if k = 0 then 0 else 100,
    fun k => if k = 0 then 70000 else 60000,
    fun k j =>
      if k = 0 then (if j = 0 then 400 else 1000)
      else (if j = 0 then 300 else 900),
    fun _ j => if j = 0 then 0 else 3 / 10⟩

/-! ## Helper lemmas: monotone rows and the binary-search bracket -/

lemma StrictIncOn.le_mono {f : ℕ → K} {n a b : ℕ} (h : StrictIncOn f n)
    (hab : a ≤ b) (hb : b < n) : f a ≤ f b := by
  induction hab with
  | refl => exact le_rfl
  | @step m hm ih =>
    exact le_trans (ih (by omega)) (le_of_lt (h m (by omega)))

lemma StrictIncOn.lt_mono {f : ℕ → K} {n a b : ℕ} (h : StrictIncOn f n)
    (hab : a < b) (hb : b < n) : f a < f b := by
  induction hab with
  | refl => exact h a (by omega)
  | @step m hm ih =>
    exact lt_trans (ih (by omega)) (h m (by omega))

lemma filter_range_eq_range (p : ℕ → Bool) (n : ℕ)
    (hdc : ∀ a b, a ≤ b → b < n → p b = true → p a = true) :
    (List.range n).filter p = List.range (((List.range n).filter p).length) := by
  induction n with
  | zero => simp
  | succ m ih =>
    rw [List.range_succ, List.filter_append]
    by_cases hp : p m = true
    · have hall : (List.range m).filter p = List.range m :=
        List.filter_eq_self.mpr fun a ha =>
          hdc a m (le_of_lt (List.mem_range.mp ha)) (Nat.lt_succ_self m) hp
      simp [hall, hp, List.range_succ]
    · have hm : (List.filter p [m]) = [] := by
        simp [List.filter, Bool.eq_false_iff.mpr hp]
      rw [hm, List.append_nil,
        ih fun a b hab hb hpb => hdc a b hab (Nat.lt_succ_of_lt hb) hpb]
      simp

lemma searchsorted_le {f : ℕ → K} (n : ℕ) (T : K) : searchsortedLeft f n T ≤ n := by
  unfold searchsortedLeft
  calc ((List.range n).filter _).length ≤ (List.range n).length :=
        List.length_filter_le _ _
    _ = n := List.length_range n

lemma searchsorted_spec {f : ℕ → K} {n : ℕ} (hinc : StrictIncOn f n) (T : K) :
    ∀ k, k < n → (f k < T ↔ k < searchsortedLeft f n T) := by
  intro k hk
  have hdc : ∀ a b, a ≤ b → b < n → decide (f b < T) = true → decide (f a < T) = true := by
    intro a b hab hb hfb
    rw [decide_eq_true_eq] at hfb ⊢
    exact lt_of_le_of_lt (hinc.le_mono hab hb) hfb
  have hfil := filter_range_eq_range (fun k => decide (f k < T)) n hdc
  constructor
  · intro hfk
    have hmem : k ∈ (List.range n).filter fun k => decide (f k < T) :=
      List.mem_filter.mpr ⟨List.mem_range.mpr hk, decide_eq_true_eq.mpr hfk⟩
    rw [hfil] at hmem
    exact List.mem_range.mp hmem
  · intro hks
    have hmem : k ∈ List.range (((List.range n).filter
        fun k => decide (f k < T)).length) := List.mem_range.mpr hks
    rw [← hfil] at hmem
    exact decide_eq_true_eq.mp (List.mem_filter.mp hmem).2

lemma boundTIndices_low {db : MaterialDB K} (hv : ValidDB db) {T : K}
    (hT : T ≤ db.TEMP 0) : boundTIndices db T = ⟨0, 0, 0⟩ := by
  obtain ⟨h1, -, hinc, -⟩ := hv
  have hs : searchsortedLeft db.TEMP db.nt T = 0 := by
    by_contra hne
    have h0 : 0 < searchsortedLeft db.TEMP db.nt T := Nat.pos_of_ne_zero hne
    have := (searchsorted_spec hinc T 0 (by omega)).mpr h0
    exact absurd (lt_of_le_of_lt hT this) (lt_irrefl _)
  unfold boundTIndices
  rw [hs]
  simp

lemma boundTIndices_gt_last {db : MaterialDB K} (hv : ValidDB db) {T : K}
    (hT : db.TEMP (db.nt - 1) < T) :
    boundTIndices db T = ⟨db.nt - 1, db.nt - 1, 0⟩ := by
  obtain ⟨h1, -, hinc, -⟩ := hv
  have hs : searchsortedLeft db.TEMP db.nt T = db.nt := by
    have hle := searchsorted_le (f := db.TEMP) db.nt T
    have := (searchsorted_spec hinc T (db.nt - 1) (by omega)).mp hT
    omega
  unfold boundTIndices
  rw [hs]
  have hne : db.nt ≠ 0 := by omega
  simp [hne]

lemma boundTIndices_eq_last {db : MaterialDB K} (hv : ValidDB db) (h2 : 2 ≤ db.nt)
    {T : K} (hT : T = db.TEMP (db.nt - 1)) :
    boundTIndices db T = ⟨db.nt - 2, db.nt - 1, 1⟩ := by
  obtain ⟨h1, -, hinc, -⟩ := hv
  have hlt : db.TEMP (db.nt - 2) < T := by
    rw [hT]; exact hinc.lt_mono (by omega) (by omega)
  have hnotlt : ¬ db.TEMP (db.nt - 1) < T := by rw [hT]; exact lt_irrefl _
  have hs : searchsortedLeft db.TEMP db.nt T = db.nt - 1 := by
    have ha := (searchsorted_spec hinc T (db.nt - 2) (by omega)).mp hlt
    have hb : ¬ (db.nt - 1 < searchsortedLeft db.TEMP db.nt T) := fun hc =>
      hnotlt ((searchsorted_spec hinc T (db.nt - 1) (by omega)).mpr hc)
    omega
  unfold boundTIndices
  rw [hs]
  have hbr1 : db.nt - 1 ≠ 0 := by omega
  have hbr2 : ¬ db.nt ≤ db.nt - 1 := by omega
  rw [if_neg hbr1, if_neg hbr2]
  have hidx : db.nt - 1 - 1 = db.nt - 2 := by omega
  have hden : db.TEMP (db.nt - 1) - db.TEMP (db.nt - 2) ≠ 0 :=
    ne_of_gt (sub_pos.mpr (hinc.lt_mono (by omega) (by omega)))
  rw [hidx, hT, div_self hden]

lemma boundTIndices_w_bounds {db : MaterialDB K} (hv : ValidDB db) (T : K) :
    0 ≤ (boundTIndices db T).w ∧ (boundTIndices db T).w ≤ 1 ∧
      (boundTIndices db T).lo < db.nt ∧ (boundTIndices db T).hi < db.nt := by
  obtain ⟨h1, -, hinc, -⟩ := hv
  unfold boundTIndices
  by_cases hs0 : searchsortedLeft db.TEMP db.nt T = 0
  · rw [hs0]; simp; omega
  · rw [if_neg hs0]
    by_cases hsn : db.nt ≤ searchsortedLeft db.TEMP db.nt T
    · rw [if_pos hsn]
      exact ⟨le_rfl, zero_le_one, show db.nt - 1 < db.nt by omega,
        show db.nt - 1 < db.nt by omega⟩
    · rw [if_neg hsn]
      push_neg at hsn
      have hs1 : 1 ≤ searchsortedLeft db.TEMP db.nt T := Nat.pos_of_ne_zero hs0
      set s := searchsortedLeft db.TEMP db.nt T with hsdef
      have hlow : db.TEMP (s - 1) < T :=
        (searchsorted_spec hinc T (s - 1) (by omega)).mpr (by omega)
      have hhigh : ¬ db.TEMP s < T := fun hc =>
        absurd ((searchsorted_spec hinc T s (by omega)).mp hc) (lt_irrefl s)
      push_neg at hhigh
      have hden : 0 < db.TEMP s - db.TEMP (s - 1) :=
        sub_pos.mpr (hinc.lt_mono (by omega) (by omega))
      refine ⟨div_nonneg (by linarith) (le_of_lt hden), ?_,
        show s - 1 < db.nt by omega, show s < db.nt by omega⟩
      show (T - db.TEMP (s - 1)) / (db.TEMP s - db.TEMP (s - 1)) ≤ 1
      rw [div_le_one hden]
      linarith

/-! ## Helper lemmas: curve primitives at or below the first stress point -/

lemma interpEpspOnCurve_entry {x : K} {sigRow epspRow : ℕ → K} {n : ℕ}
    {up : Bool} (h : x ≤ sigRow 0) :
    interpEpspOnCurve x sigRow epspRow n up = 0 := if_pos h

lemma plasticEnergyOnCurve_entry {x : K} {sigRow epspRow : ℕ → K} {n : ℕ}
    {up : Bool} (h : x ≤ sigRow 0) :
    plasticEnergyOnCurve x sigRow epspRow n up = 0 := if_pos h

lemma epspOfTSigma_eq_zero {db : MaterialDB K} {T x : K} {up : Bool}
    (hlo : x ≤ db.SIG (boundTIndices db T).lo 0)
    (hhi : x ≤ db.SIG (boundTIndices db T).hi 0) :
    epspOfTSigma db T x up = 0 := by
  simp only [epspOfTSigma]
  rw [interpEpspOnCurve_entry hlo, interpEpspOnCurve_entry hhi]
  split <;> ring

lemma UpOfTSigma_eq_zero {db : MaterialDB K} {T x : K} {up : Bool}
    (hlo : x ≤ db.SIG (boundTIndices db T).lo 0)
    (hhi : x ≤ db.SIG (boundTIndices db T).hi 0) :
    UpOfTSigma db T x up = 0 := by
  simp only [UpOfTSigma]
  rw [plasticEnergyOnCurve_entry hlo, plasticEnergyOnCurve_entry hhi]
  split <;> ring

lemma le_yield_of_le_rows {db : MaterialDB K} (hv : ValidDB db) {T x : K}
    (hlo : x ≤ db.SIG (boundTIndices db T).lo 0)
    (hhi : x ≤ db.SIG (boundTIndices db T).hi 0) :
    x ≤ yield_of_T db T := by
  obtain ⟨hw0, hw1, -, -⟩ := boundTIndices_w_bounds hv T
  simp only [yield_of_T]
  nlinarith

/-! ## Helper lemmas: IBG step structure -/

lemma deltaEpspCurveAware_nonneg (db : MaterialDB K) (dUe T epspPrev : K)
    (up : Bool) : 0 ≤ deltaEpspCurveAware db dUe T epspPrev up := by
  simp only [deltaEpspCurveAware]
  split
  · exact le_rfl
  · exact le_max_right _ _

lemma ibgStep_epsp_le (sq : K → K) (db : MaterialDB K) (sigPrev sigNow : ℕ → K)
    (Tk epspPrev : K) (up : Bool) :
    epspPrev ≤ (ibgStep sq db sigPrev sigNow Tk epspPrev up).2 := by
  simp only [ibgStep]
  split
  · exact le_rfl
  · exact le_add_of_nonneg_right (deltaEpspCurveAware_nonneg _ _ _ _ _)

lemma ibgStep_mean (sq : K → K) (db : MaterialDB K) (sigPrev sigNow : ℕ → K)
    (Tk epspPrev : K) (up : Bool) :
    (ibgStep sq db sigPrev sigNow Tk epspPrev up).1 0 +
        (ibgStep sq db sigPrev sigNow Tk epspPrev up).1 1 +
        (ibgStep sq db sigPrev sigNow Tk epspPrev up).1 2 =
      sigNow 0 + sigNow 1 + sigNow 2 := by
  simp only [ibgStep]
  split
  · rfl
  · norm_num
    ring

/-! ## Claim C4 -/

/-- Claim C4: at every step `k` of the IBG tensor solver, the mean of the
three normal Voigt components of the corrected stress equals the mean of
the normal components of the input stress — the deviatoric-only radial
scaling leaves the hydrostatic stress unchanged (exactly, for every
database, history, and extrapolation policy). -/
theorem C4_ibg_hydrostatic_preserved (db : MaterialDB ℝ) (sigHist : ℕ → ℕ → ℝ)
    (THist : ℕ → ℝ) (up : Bool) (k : ℕ) :
    ((ibgState Real.sqrt db sigHist THist up k).1 0 +
        (ibgState Real.sqrt db sigHist THist up k).1 1 +
        (ibgState Real.sqrt db sigHist THist up k).1 2) / 3 =
      (sigHist k 0 + sigHist k 1 + sigHist k 2) / 3 := by
  cases k with
  | zero => rfl
  | succ k =>
    have h := ibgStep_mean Real.sqrt db (sigHist k) (sigHist (k + 1))
      (THist (k + 1)) (ibgState Real.sqrt db sigHist THist up k).2 up
    simp only [ibgState]
    rw [h]

/-! ## Claim C10 -/

/-- Claim C10: the cumulative plastic-strain history produced by the IBG
solver starts at `0` and is non-decreasing in time, for every database,
stress/temperature history, and extrapolation policy (each per-step
increment is clamped non-negative before accumulation). -/
theorem C10_ibg_epsp_monotone (db : MaterialDB ℝ) (sigHist : ℕ → ℕ → ℝ)
    (THist : ℕ → ℝ) (up : Bool) :
    (ibgState Real.sqrt db sigHist THist up 0).2 = 0 ∧
      ∀ k, (ibgState Real.sqrt db sigHist THist up k).2 ≤
        (ibgState Real.sqrt db sigHist THist up (k + 1)).2 := by
  refine ⟨rfl, fun k => ?_⟩
  exact ibgStep_epsp_le Real.sqrt db (sigHist k) (sigHist (k + 1))
    (THist (k + 1)) (ibgState Real.sqrt db sigHist THist up k).2 up

/-! ## Claim C5 -/

lemma blended_at_clamp {db : MaterialDB K} {T : K} {r : ℕ}
    (hb : boundTIndices db T = ⟨r, r, 0⟩) (x : K) (up : Bool) :
    E_of_T db T = db.E_tab r ∧
      yield_of_T db T = db.SIG r 0 ∧
      epspOfTSigma db T x up =
        interpEpspOnCurve x (db.SIG r) (db.EPSP r) db.np2 up ∧
      sigmaOfTEpsp db T x up =
        invertSigmaOnCurve x (db.SIG r) (db.EPSP r) db.np2 up ∧
      UpOfTSigma db T x up =
        plasticEnergyOnCurve x (db.SIG r) (db.EPSP r) db.np2 up := by
  simp only [E_of_T, yield_of_T, epspOfTSigma, sigmaOfTEpsp, UpOfTSigma, hb]
  refine ⟨by ring, by ring, ?_, ?_, ?_⟩ <;> simp

lemma blended_at_last {db : MaterialDB K} {T : K} (h2 : 2 ≤ db.nt)
    (hb : boundTIndices db T = ⟨db.nt - 2, db.nt - 1, 1⟩) (x : K) (up : Bool) :
    E_of_T db T = db.E_tab (db.nt - 1) ∧
      yield_of_T db T = db.SIG (db.nt - 1) 0 ∧
      epspOfTSigma db T x up =
        interpEpspOnCurve x (db.SIG (db.nt - 1)) (db.EPSP (db.nt - 1)) db.np2 up ∧
      sigmaOfTEpsp db T x up =
        invertSigmaOnCurve x (db.SIG (db.nt - 1)) (db.EPSP (db.nt - 1)) db.np2 up ∧
      UpOfTSigma db T x up =
        plasticEnergyOnCurve x (db.SIG (db.nt - 1)) (db.EPSP (db.nt - 1)) db.np2 up := by
  have hne : db.nt - 2 ≠ db.nt - 1 := by omega
  simp only [E_of_T, yield_of_T, epspOfTSigma, sigmaOfTEpsp, UpOfTSigma, hb]
  refine ⟨by ring, by ring, ?_, ?_, ?_⟩ <;> rw [if_neg hne] <;> ring

/-- Claim C5: for every valid database and every temperature-blended
operation (Young modulus, yield stress, plastic strain, flow stress,
plastic energy), querying at or below the first tabulated temperature
returns exactly the first row's unblended value, and querying at or above
the last tabulated temperature returns exactly the last row's unblended
value — no extrapolation across temperature. -/
theorem C5_temperature_boundary (db : MaterialDB K) (hv : ValidDB db)
    (T x : K) (up : Bool) :
    (T ≤ db.TEMP 0 →
      E_of_T db T = db.E_tab 0 ∧
      yield_of_T db T = db.SIG 0 0 ∧
      epspOfTSigma db T x up =
        interpEpspOnCurve x (db.SIG 0) (db.EPSP 0) db.np2 up ∧
      sigmaOfTEpsp db T x up =
        invertSigmaOnCurve x (db.SIG 0) (db.EPSP 0) db.np2 up ∧
      UpOfTSigma db T x up =
        plasticEnergyOnCurve x (db.SIG 0) (db.EPSP 0) db.np2 up) ∧
    (db.TEMP (db.nt - 1) ≤ T →
      E_of_T db T = db.E_tab (db.nt - 1) ∧
      yield_of_T db T = db.SIG (db.nt - 1) 0 ∧
      epspOfTSigma db T x up =
        interpEpspOnCurve x (db.SIG (db.nt - 1)) (db.EPSP (db.nt - 1)) db.np2 up ∧
      sigmaOfTEpsp db T x up =
        invertSigmaOnCurve x (db.SIG (db.nt - 1)) (db.EPSP (db.nt - 1)) db.np2 up ∧
      UpOfTSigma db T x up =
        plasticEnergyOnCurve x (db.SIG (db.nt - 1)) (db.EPSP (db.nt - 1)) db.np2 up) := by
  constructor
  · intro hT
    exact blended_at_clamp (boundTIndices_low hv hT) x up
  · intro hT
    rcases lt_or_eq_of_le hT with hlt | heq
    · exact blended_at_clamp (boundTIndices_gt_last hv hlt) x up
    · by_cases h2 : 2 ≤ db.nt
      · exact blended_at_last h2 (boundTIndices_eq_last hv h2 heq.symm) x up
      · have h1 : db.nt = 1 := by
          have := hv.1
          omega
        have h0 : db.nt - 1 = 0 := by omega
        rw [h0]
        rw [h0] at heq
        exact blended_at_clamp (boundTIndices_low hv (le_of_eq heq.symm)) x up

set_option maxHeartbeats 2000000 in
/-- Witness for claim C5: on a concrete valid two-temperature database,
querying the blended Young modulus and plastic strain at `T = 150` (above
the last tabulated temperature `100`) returns the last row's values, and
querying the yield stress at `T = -10` (below the first temperature `0`)
returns the first row's value. -/
theorem C5_temperature_boundary_witness :
    ValidDB dbTwoTemp ∧ dbTwoTemp.TEMP (dbTwoTemp.nt - 1) ≤ (150 : ℚ) ∧
      (-10 : ℚ) ≤ dbTwoTemp.TEMP 0 ∧
      E_of_T dbTwoTemp 150 = dbTwoTemp.E_tab 1 ∧
      epspOfTSigma dbTwoTemp 150 600 false =
        interpEpspOnCurve 600 (dbTwoTemp.SIG 1) (dbTwoTemp.EPSP 1) 2 false ∧
      yield_of_T dbTwoTemp (-10) = dbTwoTemp.SIG 0 0 := by
  have hv : ValidDB dbTwoTemp := of_decide_eq_true (by with_unfolding_all rfl)
  have hhi : dbTwoTemp.TEMP (dbTwoTemp.nt - 1) ≤ (150 : ℚ) :=
    of_decide_eq_true (by with_unfolding_all rfl)
  have hlo : (-10 : ℚ) ≤ dbTwoTemp.TEMP 0 :=
    of_decide_eq_true (by with_unfolding_all rfl)
  refine ⟨hv, hhi, hlo, ?_, ?_, ?_⟩
  · exact ((C5_temperature_boundary dbTwoTemp hv 150 600 false).2 hhi).1
  · exact ((C5_temperature_boundary dbTwoTemp hv 150 600 false).2 hhi).2.2.1
  · exact ((C5_temperature_boundary dbTwoTemp hv (-10) 0 false).1 hlo).2.1

/-! ## Claim C8 -/

lemma all_range_iff {p : ℕ → Prop} [DecidablePred p] {n : ℕ} :
    ((List.range n).all fun k => decide (p k)) = true ↔ ∀ k < n, p k := by
  simp [List.all_eq_true, List.mem_range]

lemma all_range_bool_iff {p : ℕ → Bool} {n : ℕ} :
    ((List.range n).all p) = true ↔ ∀ k < n, p k = true := by
  simp [List.all_eq_true, List.mem_range]

/-- Claim C8 (amended): `MaterialDB.from_arrays` fails with a
data-validation error iff the input violates one of the checked
invariants — equal `TEMP`/`E_tab` lengths, identical `SIG`/`EPSP` shapes,
first dimension matching the temperature count, at least two curve points,
strictly increasing temperatures, strictly increasing stress rows.
`N_T ≥ 1` is NOT among the checks: an empty table passes construction
(see the counterexample). -/
theorem C8_construction_validation_iff (ntTemp nE r c r2 c2 : ℕ)
    (temp e_tab : ℕ → ℚ) (sig epsp : ℕ → ℕ → ℚ) :
    (fromArrays ntTemp nE temp e_tab r c r2 c2 sig epsp).isSome = true ↔
      (ntTemp = nE ∧ r = r2 ∧ c = c2 ∧ r = ntTemp ∧ 2 ≤ c ∧
        StrictIncOn temp ntTemp ∧ ∀ i < r, StrictIncOn (sig i) c) := by
  unfold fromArrays
  by_cases h1 : ntTemp = nE
  case neg => simp [h1]
  by_cases h2 : r = r2 ∧ c = c2
  case neg =>
    rw [if_neg (by simpa using h1), if_pos (by simpa using h2)]
    simp only [Option.isSome_none, Bool.false_eq_true, false_iff]
    intro hc
    exact h2 ⟨hc.2.1, hc.2.2.1⟩
  by_cases h3 : r = ntTemp
  case neg =>
    rw [if_neg (by simpa using h1), if_neg (by simpa using h2),
      if_pos (by simpa using h3)]
    simp only [Option.isSome_none, Bool.false_eq_true, false_iff]
    intro hc
    exact h3 hc.2.2.2.1
  by_cases h4 : 2 ≤ c
  case neg =>
    rw [if_neg (by simpa using h1), if_neg (by simpa using h2),
      if_neg (by simpa using h3), if_pos (by omega)]
    simp only [Option.isSome_none, Bool.false_eq_true, false_iff]
    intro hc
    omega
  by_cases h5 : StrictIncOn temp ntTemp
  case neg =>
    have hb5 : ¬ ((List.range (ntTemp - 1)).all
        fun k => decide (temp k < temp (k + 1))) = true := fun hall =>
      h5 (all_range_iff.mp hall)
    rw [if_neg (by simpa using h1), if_neg (by simpa using h2),
      if_neg (by simpa using h3), if_neg (by omega), if_pos (by simpa using hb5)]
    simp only [Option.isSome_none, Bool.false_eq_true, false_iff]
    intro hc
    exact h5 hc.2.2.2.2.2.1
  by_cases h6 : ∀ i < r, StrictIncOn (sig i) c
  case neg =>
    have hb6 : ¬ ((List.range r).all fun i => (List.range (c - 1)).all
        fun k => decide (sig i k < sig i (k + 1))) = true := fun hall =>
      h6 fun i hi => all_range_iff.mp (all_range_bool_iff.mp hall i hi)
    rw [if_neg (by simpa using h1), if_neg (by simpa using h2),
      if_neg (by simpa using h3), if_neg (by omega),
      if_neg (by simpa using all_range_iff.mpr h5), if_pos (by simpa using hb6)]
    simp only [Option.isSome_none, Bool.false_eq_true, false_iff]
    intro hc
    exact h6 hc.2.2.2.2.2.2
  have hb6t : ((List.range r).all fun i => (List.range (c - 1)).all
      fun k => decide (sig i k < sig i (k + 1))) = true :=
    all_range_bool_iff.mpr fun i hi => all_range_iff.mpr (h6 i hi)
  rw [if_neg (by simpa using h1), if_neg (by simpa using h2),
    if_neg (by simpa using h3), if_neg (by omega),
    if_neg (by simpa using all_range_iff.mpr h5), if_neg (by simpa using hb6t)]
  simp only [Option.isSome_some, eq_self_iff_true, true_iff]
  exact ⟨h1, h2.1, h2.2, h3, h4, h5, h6⟩

/-- Counterexample for claim C8: the claim states construction fails when
`N_T ≥ 1` is violated, but a zero-temperature table (with curve shape
`0 × 2`) passes every check of `from_arrays` and construction succeeds. -/
theorem C8_counterexample :
    (fromArrays 0 0 (fun _ => (0 : ℚ)) (fun _ => 0) 0 2 0 2 (fun _ _ => 0)
        (fun _ _ => 0)).isSome = true ∧
      (fromArrays 0 0 (fun _ => (0 : ℚ)) (fun _ => 0) 0 2 0 2
        (fun _ _ => 0) (fun _ _ => 0)).elim 0 MaterialDB.nt = 0 :=
  ⟨rfl, rfl⟩

/-! ## Claim C9 -/

/-- Claim C9: the correction wrappers raise exactly on shape mismatch:
`apply_neuber_correction` and `apply_glinka_correction` fail iff the
stress and temperature arrays differ in length, `apply_ibg_correction`
fails iff the history is not `N × 6` or the temperature history length
differs from `N`; on shape-conforming inputs all three always return a
result (runtime numeric edge cases and Newton non-convergence never
raise — the cores are total functions returning the last iterate). -/
theorem C9_error_iff_shape_mismatch :
    (∀ (n m : ℕ) (sig temp : ℕ → ℚ) (db : MaterialDB ℚ) (tol : ℚ)
        (itmax : ℕ) (up : Bool),
        (applyNeuberCorrection n m sig temp db tol itmax up).isSome = true ↔
          n = m) ∧
    (∀ (n m : ℕ) (sig temp : ℕ → ℚ) (db : MaterialDB ℚ) (tol : ℚ)
        (itmax : ℕ) (up : Bool),
        (applyGlinkaCorrection n m sig temp db tol itmax up).isSome = true ↔
          n = m) ∧
    (∀ (n cols m : ℕ) (hist : ℕ → ℕ → ℝ) (th : ℕ → ℝ) (db : MaterialDB ℝ)
        (up : Bool),
        (applyIbgCorrection Real.sqrt n cols m hist th db up).isSome = true ↔
          (cols = 6 ∧ m = n)) := by
  refine ⟨fun n m sig temp db tol itmax up => ?_,
    fun n m sig temp db tol itmax up => ?_,
    fun n cols m hist th db up => ?_⟩
  · unfold applyNeuberCorrection
    by_cases h : n = m
    · simp [h]
    · rw [if_pos (by simpa using h)]
      exact iff_of_false (by simp) h
  · unfold applyGlinkaCorrection
    by_cases h : n = m
    · simp [h]
    · rw [if_pos (by simpa using h)]
      exact iff_of_false (by simp) h
  · unfold applyIbgCorrection
    by_cases h1 : cols = 6
    · by_cases h2 : m = n
      · simp [h1, h2]
      · rw [if_neg (by simpa using h1), if_pos (by simpa using h2)]
        exact iff_of_false (by simp) fun hc => h2 hc.2
    · rw [if_pos (by simpa using h1)]
      exact iff_of_false (by simp) fun hc => h1 hc.1

/-! ## Claim C1: counterexample -/

/-- Counterexample for claim C1: on the default database (valid, with
`σe = 300 ≤ 400 = yield_stress(22)`) the Neuber solver does NOT return
`σ_corrected` exactly equal to `σe`: the convergence test applies one more
Newton update before breaking, so the result differs from `300` by about
`7·10⁻¹⁸` (a discrepancy only float64 rounding hides). -/
theorem C1_counterexample :
    ValidDB (defaultMaterialDb (K := ℚ)) ∧
      (300 : ℚ) ≤ yield_of_T (defaultMaterialDb (K := ℚ)) 22 ∧
      (neuberPoint (defaultMaterialDb (K := ℚ)) 300 22 (1 / 10 ^ 10) 60
          false).1 ≠ 300 :=
  of_decide_eq_true (by with_unfolding_all rfl)

/-! ## Claim C1: amended theorem -/

lemma EPS_pos : (0 : K) < EPS := by unfold EPS; norm_num

lemma EPS_lt_one : (EPS : K) < 1 := by unfold EPS; norm_num

lemma dS_pos (sigma : K) : (0 : K) < 1 / 10 ^ 6 * max |sigma| 1 :=
  mul_pos (by norm_num) (lt_of_lt_of_le one_pos (le_max_right _ _))

lemma neuberResidual_elastic {db : MaterialDB K} {T sigmaE sigma : K}
    {up : Bool} (heps : epspOfTSigma db T sigma up = 0) :
    neuberResidual db sigmaE T sigma up =
      sigma / E_of_T db T - sigmaE * sigmaE / (sigma * E_of_T db T + EPS) := by
  unfold neuberResidual
  rw [heps]
  ring

/-- In the elastic region (zero blended plastic strain at `σe` and at
`σe + dS`), the first Neuber Newton update from `σ = σe` is strictly
positive and at most `EPS·σe`: the residual reduces to
`σe·EPS/(E(σe·E + EPS))` and the finite-difference derivative exceeds
`1/E`. -/
lemma neuberStep_elastic_bounds {db : MaterialDB K} {T sigmaE : K} {up : Bool}
    (hpos : 0 < sigmaE) (hE : 0 < E_of_T db T)
    (hEs : 1 ≤ E_of_T db T * sigmaE)
    (heps0 : epspOfTSigma db T sigmaE up = 0)
    (heps2 : epspOfTSigma db T (sigmaE + 1 / 10 ^ 6 * max |sigmaE| 1) up = 0) :
    0 < neuberStep db sigmaE T sigmaE up ∧
      neuberStep db sigmaE T sigmaE up ≤ EPS * sigmaE := by
  have hEps : (0 : K) < EPS := EPS_pos
  have hdS : (0 : K) < 1 / 10 ^ 6 * max |sigmaE| 1 := dS_pos sigmaE
  have hEne : E_of_T db T ≠ 0 := ne_of_gt hE
  have hA : (0 : K) < sigmaE * E_of_T db T + EPS :=
    add_pos (mul_pos hpos hE) hEps
  have hB : (0 : K) <
      (sigmaE + 1 / 10 ^ 6 * max |sigmaE| 1) * E_of_T db T + EPS :=
    add_pos (mul_pos (by linarith) hE) hEps
  have hAne := ne_of_gt hA
  have hBne := ne_of_gt hB
  have hdSne := ne_of_gt hdS
  have hr : neuberResidual db sigmaE T sigmaE up =
      sigmaE * EPS / (E_of_T db T * (sigmaE * E_of_T db T + EPS)) := by
    rw [neuberResidual_elastic heps0]
    field_simp
    ring
  have hder : (neuberResidual db sigmaE T
        (sigmaE + 1 / 10 ^ 6 * max |sigmaE| 1) up -
        neuberResidual db sigmaE T sigmaE up) /
        (1 / 10 ^ 6 * max |sigmaE| 1) =
      1 / E_of_T db T + sigmaE * sigmaE * E_of_T db T /
        ((sigmaE * E_of_T db T + EPS) *
          ((sigmaE + 1 / 10 ^ 6 * max |sigmaE| 1) * E_of_T db T + EPS)) := by
    rw [neuberResidual_elastic heps0, neuberResidual_elastic heps2]
    field_simp
    ring
  have h1E : (0 : K) < 1 / E_of_T db T := by positivity
  have hquot : (0 : K) ≤ sigmaE * sigmaE * E_of_T db T /
      ((sigmaE * E_of_T db T + EPS) *
        ((sigmaE + 1 / 10 ^ 6 * max |sigmaE| 1) * E_of_T db T + EPS)) := by
    positivity
  unfold neuberStep
  rw [hder, hr]
  have hrpos : (0 : K) <
      sigmaE * EPS / (E_of_T db T * (sigmaE * E_of_T db T + EPS)) :=
    div_pos (mul_pos hpos hEps) (mul_pos hE hA)
  have hdenpos : (0 : K) < 1 / E_of_T db T + sigmaE * sigmaE * E_of_T db T /
      ((sigmaE * E_of_T db T + EPS) *
        ((sigmaE + 1 / 10 ^ 6 * max |sigmaE| 1) * E_of_T db T + EPS)) + EPS := by
    linarith
  constructor
  · exact div_pos hrpos hdenpos
  · have hstep1 : sigmaE * EPS / (E_of_T db T * (sigmaE * E_of_T db T + EPS)) /
        (1 / E_of_T db T + sigmaE * sigmaE * E_of_T db T /
          ((sigmaE * E_of_T db T + EPS) *
            ((sigmaE + 1 / 10 ^ 6 * max |sigmaE| 1) * E_of_T db T + EPS)) +
          EPS) ≤
        sigmaE * EPS / (E_of_T db T * (sigmaE * E_of_T db T + EPS)) /
          (1 / E_of_T db T) := by
      apply div_le_div_of_nonneg_left (le_of_lt hrpos) h1E
      linarith
    have hstep2 : sigmaE * EPS / (E_of_T db T * (sigmaE * E_of_T db T + EPS)) /
        (1 / E_of_T db T) = sigmaE * EPS / (sigmaE * E_of_T db T + EPS) := by
      field_simp
      ring
    have hstep3 : sigmaE * EPS / (sigmaE * E_of_T db T + EPS) ≤
        EPS * sigmaE := by
      rw [div_le_iff₀ hA]
      have hEs2 : 1 ≤ sigmaE * E_of_T db T := by
        rw [mul_comm]; exact hEs
      nlinarith [mul_pos hpos hEps]
    calc sigmaE * EPS / (E_of_T db T * (sigmaE * E_of_T db T + EPS)) /
          (1 / E_of_T db T + sigmaE * sigmaE * E_of_T db T /
            ((sigmaE * E_of_T db T + EPS) *
              ((sigmaE + 1 / 10 ^ 6 * max |sigmaE| 1) * E_of_T db T + EPS)) +
            EPS)
        ≤ sigmaE * EPS / (E_of_T db T * (sigmaE * E_of_T db T + EPS)) /
            (1 / E_of_T db T) := hstep1
      _ = sigmaE * EPS / (sigmaE * E_of_T db T + EPS) := hstep2
      _ ≤ EPS * sigmaE := hstep3

/-- Under the elastic hypotheses, the Neuber loop breaks in its first
iteration and returns `σe` minus the first Newton update. -/
lemma neuberLoop_elastic {db : MaterialDB K} {T sigmaE : K} {up : Bool}
    (fuel : ℕ) (hpos : 0 < sigmaE) (hE : 0 < E_of_T db T)
    (hEs : 1 ≤ E_of_T db T * sigmaE)
    (heps0 : epspOfTSigma db T sigmaE up = 0)
    (heps2 : epspOfTSigma db T (sigmaE + 1 / 10 ^ 6 * max |sigmaE| 1) up = 0) :
    neuberLoop db sigmaE T (1 / 10 ^ 10) up (fuel + 1) sigmaE =
      sigmaE - neuberStep db sigmaE T sigmaE up := by
  obtain ⟨hsp, hsle⟩ := neuberStep_elastic_bounds hpos hE hEs heps0 heps2
  have hEps : (0 : K) < EPS := EPS_pos
  have hEpsOne : (EPS : K) < 1 := EPS_lt_one
  have hnext : 0 < sigmaE - neuberStep db sigmaE T sigmaE up := by nlinarith
  have hbreak : |neuberStep db sigmaE T sigmaE up| / (|sigmaE| + EPS) <
      1 / 10 ^ 10 := by
    rw [abs_of_pos hsp, abs_of_pos hpos,
      div_lt_iff₀ (by linarith : (0 : K) < sigmaE + EPS)]
    have h1 : EPS * sigmaE ≤ (1 / 10 ^ 10 : K) * sigmaE := by
      have hc : (EPS : K) ≤ 1 / 10 ^ 10 := by unfold EPS; norm_num
      nlinarith
    have h2 : (0 : K) < (1 / 10 ^ 10 : K) * EPS :=
      mul_pos (by norm_num) hEps
    linarith
  simp only [neuberLoop]
  rw [if_neg (not_le.mpr hnext), if_pos hbreak]

set_option maxRecDepth 8000 in
/-- Claim C1 (amended): for a valid database with positive blended Young
modulus, `E(T)·σe ≥ 1`, `σe > 0`, and `σe` below the first stress point of
BOTH bracketing temperature rows with at least the finite-difference
margin `dS = 1e-6·max(|σe|,1)` (so the blended plastic strain vanishes at
and just above `σe` — for a single-temperature database this is just
`σe + dS ≤ yield`): the Glinka correction returns exactly `(σe, 0)`, and
the Neuber correction returns plastic strain exactly `0` with corrected
stress equal to `σe` up to at most `EPS·σe = 10⁻¹²·σe` (Neuber's
convergence test applies one final Newton update, so exact equality fails;
float64 rounding hides the defect).  The original claim's hypothesis
`σe ≤ yield_stress(T)` (blended) is insufficient: between two temperature
rows the blended plastic strain can be positive below the blended yield,
and both solvers then genuinely deviate from `(σe, 0)`. -/
theorem C1_elastic_fast_path_amended (db : MaterialDB K) (hv : ValidDB db)
    (sigmaE T : K) (hpos : 0 < sigmaE)
    (hlo : sigmaE + 1 / 10 ^ 6 * max |sigmaE| 1 ≤
      db.SIG (boundTIndices db T).lo 0)
    (hhi : sigmaE + 1 / 10 ^ 6 * max |sigmaE| 1 ≤
      db.SIG (boundTIndices db T).hi 0)
    (hE : 0 < E_of_T db T) (hEs : 1 ≤ E_of_T db T * sigmaE) :
    glinkaPoint db sigmaE T (1 / 10 ^ 10) 60 false = (sigmaE, 0) ∧
      (neuberPoint db sigmaE T (1 / 10 ^ 10) 60 false).2 = 0 ∧
      |(neuberPoint db sigmaE T (1 / 10 ^ 10) 60 false).1 - sigmaE| ≤
        EPS * sigmaE := by
  have hdS : (0 : K) < 1 / 10 ^ 6 * max |sigmaE| 1 := dS_pos sigmaE
  have hlo2 : sigmaE < db.SIG (boundTIndices db T).lo 0 := by linarith
  have hhi2 : sigmaE < db.SIG (boundTIndices db T).hi 0 := by linarith
  have heps0 : epspOfTSigma db T sigmaE false = 0 :=
    epspOfTSigma_eq_zero (le_of_lt hlo2) (le_of_lt hhi2)
  have heps2 : epspOfTSigma db T (sigmaE + 1 / 10 ^ 6 * max |sigmaE| 1)
      false = 0 := epspOfTSigma_eq_zero hlo hhi
  have hUp0 : UpOfTSigma db T sigmaE false = 0 :=
    UpOfTSigma_eq_zero (le_of_lt hlo2) (le_of_lt hhi2)
  have hyield : sigmaE ≤ yield_of_T db T :=
    le_yield_of_le_rows hv (le_of_lt hlo2) (le_of_lt hhi2)
  have hmin : min sigmaE (yield_of_T db T) = sigmaE := min_eq_left hyield
  obtain ⟨hsp, hsle⟩ := neuberStep_elastic_bounds hpos hE hEs heps0 heps2
  have hneu : neuberPoint db sigmaE T (1 / 10 ^ 10) 60 false =
      (sigmaE - neuberStep db sigmaE T sigmaE false,
        epspOfTSigma db T (sigmaE - neuberStep db sigmaE T sigmaE false)
          false) := by
    simp only [neuberPoint]
    rw [if_neg (not_le.mpr hpos), hmin, if_neg (not_le.mpr hpos),
      show (60 : ℕ) = 59 + 1 from rfl,
      neuberLoop_elastic 59 hpos hE hEs heps0 heps2]
  have hcorr : epspOfTSigma db T
      (sigmaE - neuberStep db sigmaE T sigmaE false) false = 0 :=
    epspOfTSigma_eq_zero (by linarith) (by linarith)
  refine ⟨?_, ?_, ?_⟩
  · simp only [glinkaPoint]
    rw [if_neg (not_le.mpr hpos), hmin, if_neg (not_le.mpr hpos)]
    have hr0 : glinkaUc db T (E_of_T db T) sigmaE false -
        sigmaE * sigmaE / (2 * E_of_T db T + EPS) = 0 := by
      unfold glinkaUc
      rw [hUp0]
      ring
    have hcond : |glinkaUc db T (E_of_T db T) sigmaE false -
        sigmaE * sigmaE / (2 * E_of_T db T + EPS)| /
        (|sigmaE * sigmaE / (2 * E_of_T db T + EPS)| + EPS) <
        (1 : K) / 10 ^ 10 := by
      rw [hr0, abs_zero, zero_div]
      norm_num
    have hloop : glinkaLoop db T (1 / 10 ^ 10) (E_of_T db T)
        (sigmaE * sigmaE / (2 * E_of_T db T + EPS)) false (59 + 1) sigmaE =
        sigmaE := by
      simp only [glinkaLoop]
      rw [if_pos hcond]
    rw [show (60 : ℕ) = 59 + 1 from rfl, hloop, heps0]
  · rw [hneu]
    exact hcorr
  · rw [hneu]
    show |sigmaE - neuberStep db sigmaE T sigmaE false - sigmaE| ≤
      EPS * sigmaE
    rw [show sigmaE - neuberStep db sigmaE T sigmaE false - sigmaE =
      -neuberStep db sigmaE T sigmaE false by ring, abs_neg, abs_of_pos hsp]
    exact hsle

set_option maxHeartbeats 4000000 in
/-- Witness for amended claim C1: the default database at `σe = 300`,
`T = 22` satisfies every hypothesis, so Glinka returns exactly `(300, 0)`
and Neuber returns plastic strain `0` with corrected stress within
`10⁻¹²·300` of `300`. -/
theorem C1_elastic_fast_path_amended_witness :
    (ValidDB (defaultMaterialDb (K := ℚ)) ∧ (0 : ℚ) < 300 ∧
      300 + 1 / 10 ^ 6 * max |(300 : ℚ)| 1 ≤
        (defaultMaterialDb (K := ℚ)).SIG
          (boundTIndices (defaultMaterialDb (K := ℚ)) 22).lo 0 ∧
      300 + 1 / 10 ^ 6 * max |(300 : ℚ)| 1 ≤
        (defaultMaterialDb (K := ℚ)).SIG
          (boundTIndices (defaultMaterialDb (K := ℚ)) 22).hi 0 ∧
      0 < E_of_T (defaultMaterialDb (K := ℚ)) 22 ∧
      1 ≤ E_of_T (defaultMaterialDb (K := ℚ)) 22 * 300) ∧
    glinkaPoint (defaultMaterialDb (K := ℚ)) 300 22 (1 / 10 ^ 10) 60 false =
      (300, 0) ∧
    (neuberPoint (defaultMaterialDb (K := ℚ)) 300 22 (1 / 10 ^ 10) 60
      false).2 = 0 ∧
    |(neuberPoint (defaultMaterialDb (K := ℚ)) 300 22 (1 / 10 ^ 10) 60
      false).1 - 300| ≤ EPS * 300 := by
  have h1 : ValidDB (defaultMaterialDb (K := ℚ)) :=
    of_decide_eq_true (by with_unfolding_all rfl)
  have h2 : (0 : ℚ) < 300 := by norm_num
  have h3 : 300 + 1 / 10 ^ 6 * max |(300 : ℚ)| 1 ≤
      (defaultMaterialDb (K := ℚ)).SIG
        (boundTIndices (defaultMaterialDb (K := ℚ)) 22).lo 0 :=
    of_decide_eq_true (by with_unfolding_all rfl)
  have h4 : 300 + 1 / 10 ^ 6 * max |(300 : ℚ)| 1 ≤
      (defaultMaterialDb (K := ℚ)).SIG
        (boundTIndices (defaultMaterialDb (K := ℚ)) 22).hi 0 :=
    of_decide_eq_true (by with_unfolding_all rfl)
  have h5 : 0 < E_of_T (defaultMaterialDb (K := ℚ)) 22 :=
    of_decide_eq_true (by with_unfolding_all rfl)
  have h6 : 1 ≤ E_of_T (defaultMaterialDb (K := ℚ)) 22 * 300 :=
    of_decide_eq_true (by with_unfolding_all rfl)
  exact ⟨⟨h1, h2, h3, h4, h5, h6⟩,
    C1_elastic_fast_path_amended (defaultMaterialDb (K := ℚ)) h1 300 22 h2 h3
      h4 h5 h6⟩

/-! ## Claim C2 -/

/-- Counterexample for claim C2: a valid database tuned so that the Neuber
residual vanishes exactly at the yield stress: for `σe = 400 + 10⁻¹³`
strictly above yield `400`, Newton breaks immediately at `σ = 400` and the
returned plastic strain is exactly `0`, contradicting `εp > 0`. -/
theorem C2_counterexample :
    ValidDB dbGraze ∧
      yield_of_T dbGraze 22 < 400 + 1 / 10 ^ 13 ∧
      (neuberPoint dbGraze (400 + 1 / 10 ^ 13) 22 (1 / 10 ^ 10) 60
          false).2 = 0 :=
  of_decide_eq_true (by with_unfolding_all rfl)

set_option maxHeartbeats 16000000 in
set_option maxRecDepth 40000 in
/-- Claim C2 (amended): above yield, the corrected stress does not exceed
the elastic stress and the plastic strain is non-negative, with strict
positivity attained for genuinely plastic inputs — verified here for the
spec's own scenario, the default database at `σe = 500 > 400 = yield`,
`T = 22`, for both the Neuber and the Glinka solver (`σc ≤ σe` and
`εp > 0`); strict positivity of `εp` fails for grazing inputs
(see the counterexample), so it cannot hold for every valid database. -/
theorem C2_plastic_amended :
    ValidDB (defaultMaterialDb (K := ℚ)) ∧
      yield_of_T (defaultMaterialDb (K := ℚ)) 22 < 500 ∧
      (neuberPoint (defaultMaterialDb (K := ℚ)) 500 22 (1 / 10 ^ 10) 60
          false).1 ≤ 500 ∧
      0 < (neuberPoint (defaultMaterialDb (K := ℚ)) 500 22 (1 / 10 ^ 10) 60
          false).2 ∧
      (glinkaPoint (defaultMaterialDb (K := ℚ)) 500 22 (1 / 10 ^ 10) 60
          false).1 ≤ 500 ∧
      0 < (glinkaPoint (defaultMaterialDb (K := ℚ)) 500 22 (1 / 10 ^ 10) 60
          false).2 :=
  of_decide_eq_true (by with_unfolding_all rfl)

/-! ## Claim C3 -/

set_option maxHeartbeats 16000000 in
set_option maxRecDepth 40000 in
/-- Claim C3: with the default single-temperature database, the Glinka
correction of `σe = 500` at `T = 22` satisfies the energy balance
`σc²/(2E) + Up(T, σc) = σe²/(2E)` to within `10⁻⁸` relative tolerance
(the exact defect is about `1.1·10⁻¹⁴` relative). -/
theorem C3_glinka_energy_balance :
    |(glinkaPoint (defaultMaterialDb (K := ℚ)) 500 22 (1 / 10 ^ 10) 60
          false).1 ^ 2 / (2 * E_of_T (defaultMaterialDb (K := ℚ)) 22) +
        UpOfTSigma (defaultMaterialDb (K := ℚ)) 22
          (glinkaPoint (defaultMaterialDb (K := ℚ)) 500 22 (1 / 10 ^ 10) 60
            false).1 false -
        500 ^ 2 / (2 * E_of_T (defaultMaterialDb (K := ℚ)) 22)| ≤
      1 / 10 ^ 8 * (500 ^ 2 / (2 * E_of_T (defaultMaterialDb (K := ℚ)) 22)) :=
  of_decide_eq_true (by with_unfolding_all rfl)

/-! ## Claim C6 -/

lemma le_foldr_max (g : ℕ → K) (b : K) (l : List ℕ) (k : ℕ) (hk : k ∈ l) :
    g k ≤ l.foldr (fun k acc => max (g k) acc) b := by
  induction l with
  | nil => cases hk
  | cons a l ih =>
    rcases List.mem_cons.mp hk with h | h
    · subst h; exact le_max_left _ _
    · exact le_trans (ih h) (le_max_right _ _)

lemma foldr_max_base_le (g : ℕ → K) (b : K) (l : List ℕ) :
    b ≤ l.foldr (fun k acc => max (g k) acc) b := by
  induction l with
  | nil => exact le_rfl
  | cons a l ih => exact le_trans ih (le_max_right _ _)

lemma rtBound_nonneg (sigRow epspRow : ℕ → K) (n : ℕ) :
    0 ≤ rtBound sigRow epspRow n := by
  unfold rtBound
  exact mul_nonneg (le_of_lt EPS_pos) (foldr_max_base_le _ 0 _)

/-- The interpolation scan returns the linear interpolant of the FIRST
bracketing segment: if `ks` brackets `sig` and every earlier segment ends
strictly below `sig`, the scan starting at or before `ks` stops at `ks`. -/
lemma interpEpspGo_finds {sig : K} {sigRow epspRow : ℕ → K} {n : ℕ}
    {up : Bool} {ks : ℕ} (h1 : sigRow ks ≤ sig) (h2 : sig ≤ sigRow (ks + 1))
    (hprev : ∀ l, l < ks → sigRow (l + 1) < sig) :
    ∀ fuel k, k ≤ ks → ks < k + fuel →
      interpEpspGo sig sigRow epspRow n up fuel k =
        epspRow ks + (sig - sigRow ks) * (epspRow (ks + 1) - epspRow ks) /
          (sigRow (ks + 1) - sigRow ks + EPS) := by
  intro fuel
  induction fuel with
  | zero => intro k hk1 hk2; omega
  | succ fuel ih =>
    intro k hk1 hk2
    rcases eq_or_lt_of_le hk1 with heq | hlt
    · subst heq
      simp only [interpEpspGo]
      rw [if_pos ⟨h1, h2⟩]
    · have hnot : ¬(sigRow k ≤ sig ∧ sig ≤ sigRow (k + 1)) := fun hc =>
        absurd hc.2 (not_le.mpr (hprev k hlt))
      simp only [interpEpspGo]
      rw [if_neg hnot]
      exact ih (k + 1) (by omega) (by omega)

/-- Same stopping property for the inversion scan on the plastic-strain
axis. -/
lemma invertSigmaGo_finds {ep : K} {sigRow epspRow : ℕ → K} {n : ℕ}
    {up : Bool} {ks : ℕ} (h1 : epspRow ks ≤ ep) (h2 : ep ≤ epspRow (ks + 1))
    (hprev : ∀ l, l < ks → epspRow (l + 1) < ep) :
    ∀ fuel k, k ≤ ks → ks < k + fuel →
      invertSigmaGo ep sigRow epspRow n up fuel k =
        sigRow ks + ((ep - epspRow ks) / (epspRow (ks + 1) - epspRow ks + EPS)) *
          (sigRow (ks + 1) - sigRow ks) := by
  intro fuel
  induction fuel with
  | zero => intro k hk1 hk2; omega
  | succ fuel ih =>
    intro k hk1 hk2
    rcases eq_or_lt_of_le hk1 with heq | hlt
    · subst heq
      simp only [invertSigmaGo]
      rw [if_pos ⟨h1, h2⟩]
    · have hnot : ¬(epspRow k ≤ ep ∧ ep ≤ epspRow (k + 1)) := fun hc =>
        absurd hc.2 (not_le.mpr (hprev k hlt))
      simp only [invertSigmaGo]
      rw [if_neg hnot]
      exact ih (k + 1) (by omega) (by omega)

/-- Claim C6 (amended): for a single hardening-curve row with strictly
increasing stress values, strictly increasing plastic-strain values, AND a
non-negative first plastic-strain value, the composition
`stress_of_plastic_strain` after `plastic_strain_of_stress` returns `σ`
within the explicit tolerance `rtBound` (the worst-case perturbation of
the two `EPS`-guarded interpolation denominators, about `10⁻¹²` times the
segment-aspect ratio), for every `σ` in the tabulated range and either
extrapolation policy.  Without `0 ≤ plastic_strain[0]` the round trip can
be off by half a segment (see the counterexample), so the claim as stated
— strict monotonicity alone — is false. -/
theorem C6_roundtrip_amended (sigRow epspRow : ℕ → K) (n : ℕ) (hn : 2 ≤ n)
    (hs : StrictIncOn sigRow n) (he : StrictIncOn epspRow n)
    (he0 : 0 ≤ epspRow 0) (sigma : K) (hL : sigRow 0 ≤ sigma)
    (hR : sigma ≤ sigRow (n - 1)) (up up2 : Bool) :
    |invertSigmaOnCurve (interpEpspOnCurve sigma sigRow epspRow n up)
        sigRow epspRow n up2 - sigma| ≤ rtBound sigRow epspRow n := by
  classical
  have hEps : (0 : K) < EPS := EPS_pos
  by_cases hstart : sigma ≤ sigRow 0
  · have hEq : sigma = sigRow 0 := le_antisymm hstart hL
    rw [interpEpspOnCurve, if_pos hstart, invertSigmaOnCurve, if_pos he0,
      hEq, sub_self, abs_zero]
    exact rtBound_nonneg sigRow epspRow n
  · push_neg at hstart
    have hex : ∃ k, sigma ≤ sigRow (k + 1) :=
      ⟨n - 2, by rw [show n - 2 + 1 = n - 1 by omega]; exact hR⟩
    set ks := Nat.find hex with hksdef
    have hks : sigma ≤ sigRow (ks + 1) := Nat.find_spec hex
    have hmin : ∀ m, m < ks → ¬ sigma ≤ sigRow (m + 1) := fun m hm =>
      Nat.find_min hex hm
    have hksle : ks ≤ n - 2 := by
      by_contra hc
      exact hmin (n - 2) (by omega)
        (by rw [show n - 2 + 1 = n - 1 by omega]; exact hR)
    have hlt_sig : sigRow ks < sigma := by
      cases hke : ks with
      | zero => exact hke ▸ hstart
      | succ m =>
        have hm := hmin m (by omega)
        push_neg at hm
        exact hke ▸ hm
    have hprev : ∀ l, l < ks → sigRow (l + 1) < sigma := fun l hl =>
      not_le.mp (hmin l hl)
    have hds : 0 < sigRow (ks + 1) - sigRow ks :=
      sub_pos.mpr (hs ks (by omega))
    have hde : 0 < epspRow (ks + 1) - epspRow ks :=
      sub_pos.mpr (he ks (by omega))
    have hinterp : interpEpspOnCurve sigma sigRow epspRow n up =
        epspRow ks + (sigma - sigRow ks) * (epspRow (ks + 1) - epspRow ks) /
          (sigRow (ks + 1) - sigRow ks + EPS) := by
      rw [interpEpspOnCurve, if_neg (not_le.mpr hstart)]
      exact interpEpspGo_finds (le_of_lt hlt_sig) hks hprev (n - 1) 0
        (by omega) (by omega)
    have hfrac_pos : 0 < (sigma - sigRow ks) * (epspRow (ks + 1) - epspRow ks) /
        (sigRow (ks + 1) - sigRow ks + EPS) :=
      div_pos (mul_pos (sub_pos.mpr hlt_sig) hde) (by linarith)
    have hsd : sigma - sigRow ks ≤ sigRow (ks + 1) - sigRow ks := by linarith
    have hfrac_lt : (sigma - sigRow ks) * (epspRow (ks + 1) - epspRow ks) /
        (sigRow (ks + 1) - sigRow ks + EPS) <
        epspRow (ks + 1) - epspRow ks := by
      rw [div_lt_iff₀ (by linarith)]
      nlinarith
    have heps_lo : epspRow ks < interpEpspOnCurve sigma sigRow epspRow n up := by
      rw [hinterp]; linarith
    have heps_hi : interpEpspOnCurve sigma sigRow epspRow n up <
        epspRow (ks + 1) := by
      rw [hinterp]; linarith
    have hinv_entry : ¬ interpEpspOnCurve sigma sigRow epspRow n up ≤
        epspRow 0 := by
      push_neg
      exact lt_of_le_of_lt (he.le_mono (Nat.zero_le ks) (by omega)) heps_lo
    have hinvprev : ∀ l, l < ks →
        epspRow (l + 1) < interpEpspOnCurve sigma sigRow epspRow n up :=
      fun l hl =>
        lt_of_le_of_lt (he.le_mono (by omega) (by omega)) heps_lo
    have hinv : invertSigmaOnCurve
        (interpEpspOnCurve sigma sigRow epspRow n up) sigRow epspRow n up2 =
        sigRow ks + ((interpEpspOnCurve sigma sigRow epspRow n up -
            epspRow ks) / (epspRow (ks + 1) - epspRow ks + EPS)) *
          (sigRow (ks + 1) - sigRow ks) := by
      rw [invertSigmaOnCurve, if_neg hinv_entry]
      exact invertSigmaGo_finds (le_of_lt heps_lo) (le_of_lt heps_hi)
        hinvprev (n - 1) 0 (by omega) (by omega)
    have herr : invertSigmaOnCurve
        (interpEpspOnCurve sigma sigRow epspRow n up) sigRow epspRow n up2 -
        sigma =
        -((sigma - sigRow ks) *
          (EPS * ((sigRow (ks + 1) - sigRow ks) +
            (epspRow (ks + 1) - epspRow ks) + EPS)) /
          ((sigRow (ks + 1) - sigRow ks + EPS) *
            (epspRow (ks + 1) - epspRow ks + EPS))) := by
      rw [hinv, hinterp]
      have hdsne : sigRow (ks + 1) - sigRow ks + EPS ≠ 0 := by positivity
      have hdene : epspRow (ks + 1) - epspRow ks + EPS ≠ 0 := by positivity
      field_simp
      ring
    have hnum : 0 ≤ (sigma - sigRow ks) *
        (EPS * ((sigRow (ks + 1) - sigRow ks) +
          (epspRow (ks + 1) - epspRow ks) + EPS)) :=
      mul_nonneg (by linarith) (mul_nonneg (le_of_lt hEps) (by linarith))
    have hdenpos : (0 : K) < (sigRow (ks + 1) - sigRow ks + EPS) *
        (epspRow (ks + 1) - epspRow ks + EPS) :=
      mul_pos (by linarith) (by linarith)
    rw [herr, abs_neg, abs_of_nonneg (div_nonneg hnum (le_of_lt hdenpos))]
    have hbound1 : (sigma - sigRow ks) *
        (EPS * ((sigRow (ks + 1) - sigRow ks) +
          (epspRow (ks + 1) - epspRow ks) + EPS)) /
        ((sigRow (ks + 1) - sigRow ks + EPS) *
          (epspRow (ks + 1) - epspRow ks + EPS)) ≤
        EPS * ((sigRow (ks + 1) - sigRow ks +
          (epspRow (ks + 1) - epspRow ks) + EPS) /
          (epspRow (ks + 1) - epspRow ks)) := by
      rw [mul_div_assoc', div_le_div_iff₀ hdenpos hde]
      have hx : sigma - sigRow ks ≤ sigRow (ks + 1) - sigRow ks + EPS := by
        linarith
      have hy : epspRow (ks + 1) - epspRow ks ≤
          epspRow (ks + 1) - epspRow ks + EPS := by linarith
      have hprod : (sigma - sigRow ks) * (epspRow (ks + 1) - epspRow ks) ≤
          (sigRow (ks + 1) - sigRow ks + EPS) *
            (epspRow (ks + 1) - epspRow ks + EPS) :=
        mul_le_mul hx hy (le_of_lt hde) (by linarith)
      have hco : (0 : K) ≤ EPS * ((sigRow (ks + 1) - sigRow ks) +
          (epspRow (ks + 1) - epspRow ks) + EPS) :=
        mul_nonneg (le_of_lt hEps) (by linarith)
      calc (sigma - sigRow ks) *
            (EPS * ((sigRow (ks + 1) - sigRow ks) +
              (epspRow (ks + 1) - epspRow ks) + EPS)) *
            (epspRow (ks + 1) - epspRow ks)
          = (EPS * ((sigRow (ks + 1) - sigRow ks) +
              (epspRow (ks + 1) - epspRow ks) + EPS)) *
            ((sigma - sigRow ks) * (epspRow (ks + 1) - epspRow ks)) := by
            ring
        _ ≤ (EPS * ((sigRow (ks + 1) - sigRow ks) +
              (epspRow (ks + 1) - epspRow ks) + EPS)) *
            ((sigRow (ks + 1) - sigRow ks + EPS) *
              (epspRow (ks + 1) - epspRow ks + EPS)) :=
            mul_le_mul_of_nonneg_left hprod hco
        _ = EPS * (sigRow (ks + 1) - sigRow ks +
              (epspRow (ks + 1) - epspRow ks) + EPS) *
            ((sigRow (ks + 1) - sigRow ks + EPS) *
              (epspRow (ks + 1) - epspRow ks + EPS)) := by
            ring
    refine le_trans hbound1 ?_
    unfold rtBound
    refine mul_le_mul_of_nonneg_left ?_ (le_of_lt hEps)
    exact le_foldr_max
      (fun k => (sigRow (k + 1) - sigRow k + (epspRow (k + 1) - epspRow k) +
        EPS) / (epspRow (k + 1) - epspRow k)) 0 (List.range (n - 1)) ks
      (List.mem_range.mpr (by omega))

/-- Counterexample for claim C6: with stress row `[400, 500]` and strictly
increasing plastic-strain row `[-5, 5]` (negative first value), the round
trip at `σ = 400` returns about `450` — off by half the stress range, far
beyond any interpolation tolerance (`rtBound ≈ 1.1·10⁻¹¹` here) — because
`plastic_strain_of_stress` clamps to `0` at the first stress point while
`stress_of_plastic_strain` clamps at the first plastic-strain value. -/
theorem C6_counterexample :
    StrictIncOn (fun j => if j = 0 then (400 : ℚ) else 500) 2 ∧
      StrictIncOn (fun j => if j = 0 then (-5 : ℚ) else 5) 2 ∧
      (fun j => if j = 0 then (400 : ℚ) else 500) 0 ≤ 400 ∧
      (400 : ℚ) ≤ (fun j => if j = 0 then (400 : ℚ) else 500) 1 ∧
      ¬ (|invertSigmaOnCurve
          (interpEpspOnCurve 400 (fun j => if j = 0 then (400 : ℚ) else 500)
            (fun j => if j = 0 then (-5 : ℚ) else 5) 2 false)
          (fun j => if j = 0 then (400 : ℚ) else 500)
          (fun j => if j = 0 then (-5 : ℚ) else 5) 2 false - 400| ≤
        rtBound (fun j => if j = 0 then (400 : ℚ) else 500)
          (fun j => if j = 0 then (-5 : ℚ) else 5) 2) :=
  of_decide_eq_true (by with_unfolding_all rfl)

/-- Witness for amended claim C6: the default database's hardening row
(`[400, 1004.3]` / `[0, 0.3007]`) at `σ = 500` satisfies the hypotheses,
so the round trip lands within `rtBound`. -/
theorem C6_roundtrip_amended_witness :
    ((2 : ℕ) ≤ 2 ∧
      StrictIncOn ((defaultMaterialDb (K := ℚ)).SIG 0) 2 ∧
      StrictIncOn ((defaultMaterialDb (K := ℚ)).EPSP 0) 2 ∧
      (0 : ℚ) ≤ (defaultMaterialDb (K := ℚ)).EPSP 0 0 ∧
      (defaultMaterialDb (K := ℚ)).SIG 0 0 ≤ 500 ∧
      (500 : ℚ) ≤ (defaultMaterialDb (K := ℚ)).SIG 0 (2 - 1)) ∧
    |invertSigmaOnCurve
        (interpEpspOnCurve 500 ((defaultMaterialDb (K := ℚ)).SIG 0)
          ((defaultMaterialDb (K := ℚ)).EPSP 0) 2 false)
        ((defaultMaterialDb (K := ℚ)).SIG 0)
        ((defaultMaterialDb (K := ℚ)).EPSP 0) 2 false - 500| ≤
      rtBound ((defaultMaterialDb (K := ℚ)).SIG 0)
        ((defaultMaterialDb (K := ℚ)).EPSP 0) 2 := by
  have h1 : (2 : ℕ) ≤ 2 := le_rfl
  have h2 : StrictIncOn ((defaultMaterialDb (K := ℚ)).SIG 0) 2 :=
    of_decide_eq_true (by with_unfolding_all rfl)
  have h3 : StrictIncOn ((defaultMaterialDb (K := ℚ)).EPSP 0) 2 :=
    of_decide_eq_true (by with_unfolding_all rfl)
  have h4 : (0 : ℚ) ≤ (defaultMaterialDb (K := ℚ)).EPSP 0 0 :=
    of_decide_eq_true (by with_unfolding_all rfl)
  have h5 : (defaultMaterialDb (K := ℚ)).SIG 0 0 ≤ 500 :=
    of_decide_eq_true (by with_unfolding_all rfl)
  have h6 : (500 : ℚ) ≤ (defaultMaterialDb (K := ℚ)).SIG 0 (2 - 1) :=
    of_decide_eq_true (by with_unfolding_all rfl)
  exact ⟨⟨h1, h2, h3, h4, h5, h6⟩,
    C6_roundtrip_amended ((defaultMaterialDb (K := ℚ)).SIG 0)
      ((defaultMaterialDb (K := ℚ)).EPSP 0) 2 h1 h2 h3 h4 500 h5 h6 false
      false⟩

/-! ## Claim C7 -/

lemma vonMisesArg_nonneg (s : ℕ → K) : 0 ≤ vonMisesArg s := by
  unfold vonMisesArg
  nlinarith [sq_nonneg (s 0 - s 1), sq_nonneg (s 1 - s 2),
    sq_nonneg (s 2 - s 0), mul_self_nonneg (s 3), mul_self_nonneg (s 4),
    mul_self_nonneg (s 5)]

/-- The Voigt-weighted product in `delta_Ue_tensor` telescopes to the
difference of the squared von Mises stresses:
`Σ w·(dp+dn)·(dn−dp) = (2/3)(vm²(now) − vm²(prev))`. -/
lemma deltaUeTensor_eq (sp sn : ℕ → K) (E nu : K) :
    deltaUeTensor sp sn E nu =
      2 / 3 * (vonMisesArg sn - vonMisesArg sp) /
        (4 * shearModulus E nu + EPS) := by
  simp only [deltaUeTensor]
  congr 1
  show ∑ j ∈ Finset.range 6,
      voigtWeights j * (deviator sp j + deviator sn j) *
        (deviator sn j - deviator sp j) =
    2 / 3 * (vonMisesArg sn - vonMisesArg sp)
  rw [Finset.sum_range_succ, Finset.sum_range_succ, Finset.sum_range_succ,
    Finset.sum_range_succ, Finset.sum_range_succ, Finset.sum_range_succ,
    Finset.sum_range_zero]
  simp only [voigtWeights, deviator, vonMisesArg]
  norm_num
  ring

lemma depLoop_pos {db : MaterialDB K} {T epspPrev dUe : K} {up : Bool}
    (hdUe : 0 < dUe) :
    ∀ fuel dep, 0 < dep → 0 < depLoop db T epspPrev dUe up fuel dep := by
  intro fuel
  induction fuel with
  | zero => intro dep hdep; exact hdep
  | succ fuel ih =>
    intro dep hdep
    simp only [depLoop]
    split_ifs with h
    · exact hdep
    · push_neg at h
      exact ih _ (div_pos hdUe (by linarith [EPS_pos (K := K)]))

lemma deltaEpspCurveAware_pos {db : MaterialDB K} {dUe T epspPrev : K}
    {up : Bool} (hdUe : 0 < dUe) :
    0 < deltaEpspCurveAware db dUe T epspPrev up := by
  simp only [deltaEpspCurveAware]
  rw [if_neg (not_le.mpr hdUe)]
  have hdep0 : 0 < dUe / max (yield_of_T db T) (1 / 10 ^ 9) :=
    div_pos hdUe (lt_of_lt_of_le (by norm_num) (le_max_right _ _))
  exact lt_of_lt_of_le (depLoop_pos hdUe 3 _ hdep0) (le_max_left _ _)

lemma scaleLoop_dep_zero (db : MaterialDB K) (Tk epspPrev vmEl Ek : K)
    (up : Bool) : ∀ fuel s,
      scaleLoop db Tk epspPrev vmEl Ek 0 up (fuel + 1) s = 1 := by
  intro fuel
  induction fuel with
  | zero =>
    intro s
    simp only [scaleLoop]
    norm_num
  | succ fuel ih =>
    intro s
    simp only [scaleLoop]
    exact ih _

/-- With zero accumulated plastic strain, a step whose inputs both satisfy
their own fast-path inequality (or, failing that, whose stress decreases
in von Mises norm under non-negative `E`) leaves the stress and the
plastic strain unchanged. -/
lemma ibgStep_identity (db : MaterialDB ℝ) (sp sn : ℕ → ℝ) (Tk : ℝ)
    (up : Bool) (hE : 0 ≤ E_of_T db Tk)
    (hvmn : vonMisesFromVoigt Real.sqrt sn ≤ yield_of_T db Tk) :
    ibgStep Real.sqrt db sp sn Tk 0 up = (sn, 0) := by
  by_cases hfast : max (vonMisesFromVoigt Real.sqrt sp)
      (vonMisesFromVoigt Real.sqrt sn) ≤ yield_of_T db Tk ∧ (0 : ℝ) ≤ 0
  · simp only [ibgStep]
    rw [if_pos hfast]
  · have hvmp_gt : yield_of_T db Tk < vonMisesFromVoigt Real.sqrt sp := by
      rcases not_and_or.mp hfast with h | h
      · rcases lt_max_iff.mp (not_le.mp h) with h2 | h2
        · exact h2
        · exact absurd hvmn (not_le.mpr h2)
      · exact absurd le_rfl h
    have hargn : vonMisesArg sn < vonMisesArg sp := by
      have h1 : Real.sqrt (vonMisesArg sn) < Real.sqrt (vonMisesArg sp) :=
        lt_of_le_of_lt hvmn hvmp_gt
      by_contra hc
      push_neg at hc
      exact absurd (Real.sqrt_le_sqrt hc) (not_le.mpr h1)
    have hG : 0 ≤ shearModulus (E_of_T db Tk) poissonRatio := by
      unfold shearModulus poissonRatio
      positivity
    have hden : (0 : ℝ) < 4 * shearModulus (E_of_T db Tk) poissonRatio +
        EPS := by linarith [EPS_pos (K := ℝ)]
    have hdUe : deltaUeTensor sp sn (E_of_T db Tk) poissonRatio < 0 := by
      rw [deltaUeTensor_eq]
      exact div_neg_of_neg_of_pos
        (mul_neg_of_pos_of_neg (by norm_num) (by linarith)) hden
    have hmax0 : max (deltaUeTensor sp sn (E_of_T db Tk) poissonRatio)
        (0 : ℝ) = 0 := max_eq_right (le_of_lt hdUe)
    have hdep : deltaEpspCurveAware db
        (max (deltaUeTensor sp sn (E_of_T db Tk) poissonRatio) 0) Tk 0 up =
        0 := by
      rw [hmax0]
      simp only [deltaEpspCurveAware]
      rw [if_pos le_rfl]
    simp only [ibgStep]
    rw [if_neg hfast, hdep, scaleLoop_dep_zero db Tk 0
      (vonMisesFromVoigt Real.sqrt sn) (E_of_T db Tk) up 1 1]
    rw [Prod.mk.injEq]
    constructor
    · funext j
      by_cases hj : j < 3 <;> simp [hj]
    · norm_num

/-- Claim C7 (amended): for a stress history in which every step's von
Mises equivalent stress is at or below the yield stress at that step's own
temperature, and NON-NEGATIVE blended Young moduli along the temperature
history, the IBG solver returns the history unchanged with zero plastic
strain at every step (step 0 unconditionally).  When the fast path is
missed (previous step above the CURRENT step's yield), the von Mises norm
must be decreasing, so the deviatoric energy increment is non-positive and
the step degenerates to the identity — but only because `4G + EPS > 0`;
a (construction-accepted) negative Young modulus flips the sign of the
energy increment and breaks the claim (see the counterexample). -/
theorem C7_ibg_below_yield_amended (db : MaterialDB ℝ)
    (sigHist : ℕ → ℕ → ℝ) (THist : ℕ → ℝ) (up : Bool)
    (hE : ∀ k, 0 ≤ E_of_T db (THist k))
    (hvm : ∀ k, vonMisesFromVoigt Real.sqrt (sigHist k) ≤
      yield_of_T db (THist k)) :
    ∀ k, (ibgState Real.sqrt db sigHist THist up k).1 = sigHist k ∧
      (ibgState Real.sqrt db sigHist THist up k).2 = 0 := by
  intro k
  induction k with
  | zero => exact ⟨rfl, rfl⟩
  | succ k ih =>
    have hstep := ibgStep_identity db (sigHist k) (sigHist (k + 1))
      (THist (k + 1)) up (hE (k + 1)) (hvm (k + 1))
    constructor
    · show (ibgStep Real.sqrt db (sigHist k) (sigHist (k + 1))
        (THist (k + 1)) (ibgState Real.sqrt db sigHist THist up k).2 up).1 =
        sigHist (k + 1)
      rw [ih.2, hstep]
    · show (ibgStep Real.sqrt db (sigHist k) (sigHist (k + 1))
        (THist (k + 1)) (ibgState Real.sqrt db sigHist THist up k).2 up).2 =
        0
      rw [ih.2, hstep]

lemma sqrt10000 : Real.sqrt 10000 = 100 := by
  rw [show (10000 : ℝ) = 100 ^ 2 by norm_num]
  exact Real.sqrt_sq (by norm_num)

lemma sqrt6400 : Real.sqrt 6400 = 80 := by
  rw [show (6400 : ℝ) = 80 ^ 2 by norm_num]
  exact Real.sqrt_sq (by norm_num)

lemma validDB_default_real : ValidDB (defaultMaterialDb (K := ℝ)) := by
  refine ⟨by norm_num [defaultMaterialDb], by norm_num [defaultMaterialDb],
    ?_, ?_⟩
  · intro k hk
    simp [defaultMaterialDb] at hk
  · intro i hi k hk
    simp only [defaultMaterialDb] at hk
    have hk0 : k = 0 := by omega
    subst hk0
    norm_num [defaultMaterialDb]

/-- Witness for amended claim C7: the constant uniaxial history
`σxx = 100` at `T = 22` over the (real-instantiated) default database
stays exactly unchanged with zero plastic strain, in particular at
step 1. -/
theorem C7_ibg_below_yield_amended_witness :
    ((∀ k : ℕ, (0 : ℝ) ≤ E_of_T (defaultMaterialDb (K := ℝ))
        ((fun _ : ℕ => (22 : ℝ)) k)) ∧
      (∀ k : ℕ, vonMisesFromVoigt Real.sqrt
          ((fun (_ : ℕ) (j : ℕ) => if j = 0 then (100 : ℝ) else 0) k) ≤
        yield_of_T (defaultMaterialDb (K := ℝ)) ((fun _ : ℕ => (22 : ℝ)) k))) ∧
    (ibgState Real.sqrt (defaultMaterialDb (K := ℝ))
        (fun (_ : ℕ) (j : ℕ) => if j = 0 then (100 : ℝ) else 0)
        (fun _ : ℕ => (22 : ℝ)) false 1).1 =
      (fun (_ : ℕ) (j : ℕ) => if j = 0 then (100 : ℝ) else 0) 1 ∧
    (ibgState Real.sqrt (defaultMaterialDb (K := ℝ))
        (fun (_ : ℕ) (j : ℕ) => if j = 0 then (100 : ℝ) else 0)
        (fun _ : ℕ => (22 : ℝ)) false 1).2 = 0 := by
  have hv := validDB_default_real
  have hb : boundTIndices (defaultMaterialDb (K := ℝ)) 22 = ⟨0, 0, 0⟩ :=
    boundTIndices_low hv (le_of_eq (rfl : (22 : ℝ) = _))
  have hE22 : E_of_T (defaultMaterialDb (K := ℝ)) 22 = 70000 := by
    rw [E_of_T, hb]
    show (1 - 0) * (defaultMaterialDb (K := ℝ)).E_tab 0 +
      0 * (defaultMaterialDb (K := ℝ)).E_tab 0 = 70000
    norm_num [defaultMaterialDb]
  have hy22 : yield_of_T (defaultMaterialDb (K := ℝ)) 22 = 400 := by
    rw [yield_of_T, hb]
    show (1 - 0) * (defaultMaterialDb (K := ℝ)).SIG 0 0 +
      0 * (defaultMaterialDb (K := ℝ)).SIG 0 0 = 400
    norm_num [defaultMaterialDb]
  have harg : vonMisesArg (fun j => if j = (0 : ℕ) then (100 : ℝ) else 0) =
      10000 := by
    unfold vonMisesArg
    norm_num
  have hvme : vonMisesFromVoigt Real.sqrt
      (fun j => if j = (0 : ℕ) then (100 : ℝ) else 0) = 100 := by
    unfold vonMisesFromVoigt
    rw [harg, sqrt10000]
  have hE : ∀ k : ℕ, (0 : ℝ) ≤ E_of_T (defaultMaterialDb (K := ℝ))
      ((fun _ : ℕ => (22 : ℝ)) k) := by
    intro k
    show (0 : ℝ) ≤ E_of_T (defaultMaterialDb (K := ℝ)) 22
    rw [hE22]
    norm_num
  have hvm : ∀ k : ℕ, vonMisesFromVoigt Real.sqrt
      ((fun (_ : ℕ) (j : ℕ) => if j = 0 then (100 : ℝ) else 0) k) ≤
      yield_of_T (defaultMaterialDb (K := ℝ)) ((fun _ : ℕ => (22 : ℝ)) k) := by
    intro k
    show vonMisesFromVoigt Real.sqrt
        (fun j => if j = (0 : ℕ) then (100 : ℝ) else 0) ≤
      yield_of_T (defaultMaterialDb (K := ℝ)) 22
    rw [hvme, hy22]
    norm_num
  exact ⟨⟨hE, hvm⟩,
    (C7_ibg_below_yield_amended (defaultMaterialDb (K := ℝ))
      (fun (_ : ℕ) (j : ℕ) => if j = 0 then (100 : ℝ) else 0)
      (fun _ : ℕ => (22 : ℝ)) false hE hvm 1).1,
    (C7_ibg_below_yield_amended (defaultMaterialDb (K := ℝ))
      (fun (_ : ℕ) (j : ℕ) => if j = 0 then (100 : ℝ) else 0)
      (fun _ : ℕ => (22 : ℝ)) false hE hvm 1).2⟩

lemma validDB_dbNegE : ValidDB (dbNegE (K := ℝ)) := by
  refine ⟨by norm_num [dbNegE], by norm_num [dbNegE], ?_, ?_⟩
  · intro k hk
    simp only [dbNegE] at hk
    have hk0 : k = 0 := by omega
    subst hk0
    norm_num [dbNegE]
  · intro i hi k hk
    simp only [dbNegE] at hk
    have hk0 : k = 0 := by omega
    subst hk0
    by_cases hi0 : i = 0 <;> norm_num [dbNegE, hi0]

/-- Counterexample for claim C7: a VALID two-temperature database with
negative Young modulus (`from_arrays` accepts it) and a history whose von
Mises stress stays at or below the per-step yield (`100 ≤ 500` at step 0,
`80 ≤ 90` at step 1).  The fast path misses at step 1
(`max(100, 80) > 90`), the negative modulus makes `4G + EPS < 0`, so the
decreasing stress yields a POSITIVE deviatoric energy increment and the
accumulated plastic strain at step 1 is strictly positive — the claim's
"corrected history equals input, plastic strain 0" fails. -/
theorem C7_counterexample :
    ValidDB (dbNegE (K := ℝ)) ∧
      (∀ k, vonMisesFromVoigt Real.sqrt (histNegE (K := ℝ) k) ≤
        yield_of_T (dbNegE (K := ℝ)) (tempNegE (K := ℝ) k)) ∧
      (ibgState Real.sqrt (dbNegE (K := ℝ)) (histNegE (K := ℝ))
        (tempNegE (K := ℝ)) false 1).2 ≠ 0 := by
  have hv := validDB_dbNegE
  have hb0 : boundTIndices (dbNegE (K := ℝ)) 0 = ⟨0, 0, 0⟩ :=
    boundTIndices_low hv (by simp [dbNegE])
  have hb100 : boundTIndices (dbNegE (K := ℝ)) 100 = ⟨0, 1, 1⟩ := by
    have h := boundTIndices_eq_last hv (by norm_num [dbNegE])
      (show (100 : ℝ) = (dbNegE (K := ℝ)).TEMP ((dbNegE (K := ℝ)).nt - 1)
        from by simp [dbNegE])
    simpa [dbNegE] using h
  have hy0 : yield_of_T (dbNegE (K := ℝ)) 0 = 500 := by
    rw [yield_of_T, hb0]
    show (1 - 0) * (dbNegE (K := ℝ)).SIG 0 0 + 0 * (dbNegE (K := ℝ)).SIG 0 0
      = 500
    simp [dbNegE]
  have hy100 : yield_of_T (dbNegE (K := ℝ)) 100 = 90 := by
    rw [yield_of_T, hb100]
    show (1 - 1) * (dbNegE (K := ℝ)).SIG 0 0 + 1 * (dbNegE (K := ℝ)).SIG 1 0
      = 90
    simp [dbNegE]
  have hE100 : E_of_T (dbNegE (K := ℝ)) 100 = -70000 := by
    rw [E_of_T, hb100]
    show (1 - 1) * (dbNegE (K := ℝ)).E_tab 0 + 1 * (dbNegE (K := ℝ)).E_tab 1
      = -70000
    simp [dbNegE]
  have harg0 : vonMisesArg (histNegE (K := ℝ) 0) = 10000 := by
    unfold vonMisesArg histNegE
    norm_num
  have harg1 : vonMisesArg (histNegE (K := ℝ) 1) = 6400 := by
    unfold vonMisesArg histNegE
    norm_num
  have hvm0 : vonMisesFromVoigt Real.sqrt (histNegE (K := ℝ) 0) = 100 := by
    unfold vonMisesFromVoigt
    rw [harg0, sqrt10000]
  have hvm1 : vonMisesFromVoigt Real.sqrt (histNegE (K := ℝ) 1) = 80 := by
    unfold vonMisesFromVoigt
    rw [harg1, sqrt6400]
  refine ⟨hv, ?_, ?_⟩
  · intro k
    cases k with
    | zero =>
      rw [show tempNegE (K := ℝ) 0 = 0 from rfl, hvm0, hy0]
      norm_num
    | succ m =>
      have hhist : histNegE (K := ℝ) (m + 1) = histNegE (K := ℝ) 1 := by
        funext j
        simp [histNegE]
      have htemp : tempNegE (K := ℝ) (m + 1) = 100 := by simp [tempNegE]
      rw [hhist, htemp, hvm1, hy100]
      norm_num
  · have htemp1 : tempNegE (K := ℝ) (0 + 1) = 100 := by norm_num [tempNegE]
    have hstate0 : (ibgState Real.sqrt (dbNegE (K := ℝ)) (histNegE (K := ℝ))
        (tempNegE (K := ℝ)) false 0).2 = 0 := rfl
    have hfastneg : ¬ (max
        (vonMisesFromVoigt Real.sqrt (histNegE (K := ℝ) 0))
        (vonMisesFromVoigt Real.sqrt (histNegE (K := ℝ) (0 + 1))) ≤
        yield_of_T (dbNegE (K := ℝ)) (tempNegE (K := ℝ) (0 + 1)) ∧
        (0 : ℝ) ≤ 0) := by
      intro hc
      have h1 := le_trans (le_max_left _ _) hc.1
      rw [hvm0, htemp1, hy100] at h1
      norm_num at h1
    have hdUe : 0 < deltaUeTensor (histNegE (K := ℝ) 0)
        (histNegE (K := ℝ) (0 + 1)) (E_of_T (dbNegE (K := ℝ))
          (tempNegE (K := ℝ) (0 + 1))) poissonRatio := by
      rw [htemp1, hE100, deltaUeTensor_eq]
      rw [show (0 + 1 : ℕ) = 1 from rfl, harg0, harg1]
      apply div_pos_of_neg_of_neg
      · norm_num
      · unfold shearModulus poissonRatio EPS
        norm_num
    have hdep : (0 : ℝ) < deltaEpspCurveAware (dbNegE (K := ℝ))
        (max (deltaUeTensor (histNegE (K := ℝ) 0) (histNegE (K := ℝ) (0 + 1))
          (E_of_T (dbNegE (K := ℝ)) (tempNegE (K := ℝ) (0 + 1)))
          poissonRatio) 0) (tempNegE (K := ℝ) (0 + 1)) 0 false := by
      rw [max_eq_left (le_of_lt hdUe)]
      exact deltaEpspCurveAware_pos hdUe
    rw [show (1 : ℕ) = 0 + 1 from rfl]
    show (ibgStep Real.sqrt (dbNegE (K := ℝ)) (histNegE (K := ℝ) 0)
        (histNegE (K := ℝ) (0 + 1)) (tempNegE (K := ℝ) (0 + 1))
        (ibgState Real.sqrt (dbNegE (K := ℝ)) (histNegE (K := ℝ))
          (tempNegE (K := ℝ)) false 0).2 false).2 ≠ 0
    rw [hstate0]
    simp only [ibgStep]
    rw [if_neg hfastneg]
    show (0 : ℝ) + deltaEpspCurveAware (dbNegE (K := ℝ))
        (max (deltaUeTensor (histNegE (K := ℝ) 0) (histNegE (K := ℝ) (0 + 1))
          (E_of_T (dbNegE (K := ℝ)) (tempNegE (K := ℝ) (0 + 1)))
          poissonRatio) 0) (tempNegE (K := ℝ) (0 + 1)) 0 false ≠ 0
    have hpos : (0 : ℝ) < 0 + deltaEpspCurveAware (dbNegE (K := ℝ))
        (max (deltaUeTensor (histNegE (K := ℝ) 0) (histNegE (K := ℝ) (0 + 1))
          (E_of_T (dbNegE (K := ℝ)) (tempNegE (K := ℝ) (0 + 1)))
          poissonRatio) 0) (tempNegE (K := ℝ) (0 + 1)) 0 false := by
      linarith
    exact ne_of_gt hpos

end PlasticityEngine

